import Mathlib

/-!
Verification of the cricket_score repository (scraper.py, download_flags.py,
app.py).

The Python code is shallowly embedded: strings are Lean `String`s, Python
`None` is `Option.none`, Python truthiness of optional strings is made
explicit, the filesystem and the flags mapping are explicit state records, and
the network is an oracle function.  HTML documents are modelled by records
holding exactly the pieces of the DOM that the parsers read (texts of located
elements, attribute values, cell lists), in document order; the locator
heuristics that walk the DOM to find those pieces are abstracted to the
corresponding model fields.  String functions model Python's ASCII behaviour.
-/

/-! ## Definitions: the shallow embedding -/

def isPySpace (c : Char) : Bool :=
  c = ' ' || c = '\t' || c = '\n' || c = '\r' || c = '\x0b' || c = '\x0c'

def pyStripList (l : List Char) : List Char :=
  ((l.dropWhile isPySpace).reverse.dropWhile isPySpace).reverse

def pyStrip (s : String) : String := String.mk (pyStripList s.data)

def pyLower (s : String) : String := String.mk (s.data.map Char.toLower)

def isLowerAlnum (c : Char) : Bool :=
  ('a' ≤ c && c ≤ 'z') || ('0' ≤ c && c ≤ '9')

def replaceRunsAux (p : Char → Bool) (r : Char) : List Char → Bool → List Char
  | [], _ => []
  | c :: cs, inRun =>
    if p c then
      if inRun then replaceRunsAux p r cs true
      else r :: replaceRunsAux p r cs true
    else c :: replaceRunsAux p r cs false

def replaceRuns (p : Char → Bool) (r : Char) (l : List Char) : List Char :=
  replaceRunsAux p r l false

def stripCharList (t : Char) (l : List Char) : List Char :=
  ((l.dropWhile (· = t)).reverse.dropWhile (· = t)).reverse

def slugify (name : String) : String :=
  let s := (pyLower (pyStrip name)).data
  let s := replaceRuns (fun c => !(isLowerAlnum c)) '-' s
  let s := stripCharList '-' (replaceRuns (fun c => c = '-') '-' s)
  if s = [] then "unknown" else String.mk s

/-- Character shape of slugify output: lowercase alphanumeric or hyphen. -/
def isSlugChar (c : Char) : Bool := isLowerAlnum c || c = '-'

/-- No two adjacent hyphens anywhere in the character list. -/
def noDoubleHyphen : List Char → Bool
  | a :: b :: rest => !(a = '-' && b = '-') && noDoubleHyphen (b :: rest)
  | _ => true

/-- The shape of slugify output claimed by the specification: non-empty, every
character a lowercase alphanumeric or a hyphen, no leading or trailing hyphen,
and no two adjacent hyphens. -/
def SlugShape (t : String) : Prop :=
  t ≠ "" ∧ (∀ c ∈ t.data, isSlugChar c = true) ∧
  t.data.head? ≠ some '-' ∧ t.data.getLast? ≠ some '-' ∧
  noDoubleHyphen t.data = true

instance (t : String) : Decidable (SlugShape t) :=
  inferInstanceAs (Decidable (t ≠ "" ∧ (∀ c ∈ t.data, isSlugChar c = true) ∧
    t.data.head? ≠ some '-' ∧ t.data.getLast? ≠ some '-' ∧
    noDoubleHyphen t.data = true))

/-- Python truthiness of an optional string: `None` and `""` are falsy. -/
def truthyS : Option String → Bool
  | none => false
  | some s => s ≠ ""

/-- Python `x or y` on optional strings. -/
def pyOr (x y : Option String) : Option String := if truthyS x then x else y

/-- Python `x or d` on strings. -/
def pyOrStr (x d : String) : String := if x = "" then d else x

/-- Core of Python `s.replace(old, "")` for non-empty `old = p0 :: ps`:
delete every (leftmost, non-overlapping) occurrence.  Each step shortens the
list, so fuel equal to the list's length is never exhausted. -/
def deleteAllCore (p0 : Char) (ps : List Char) : Nat → List Char → List Char
  | 0, l => l
  | _ + 1, [] => []
  | fuel + 1, c :: cs =>
    if (p0 :: ps).isPrefixOf (c :: cs) then deleteAllCore p0 ps fuel (cs.drop ps.length)
    else c :: deleteAllCore p0 ps fuel cs

/-- Python `s.replace(pat, "")`; for an empty pattern the result is `s`. -/
def pyDeleteAll (s pat : String) : String :=
  match pat.data with
  | [] => s
  | p0 :: ps => String.mk (deleteAllCore p0 ps s.data.length s.data)

/-- Python `pat in s` on character lists. -/
def containsSubList (pat : List Char) : List Char → Bool
  | [] => pat.isPrefixOf ([] : List Char)
  | c :: cs => pat.isPrefixOf (c :: cs) || containsSubList pat cs

/-- Python `pat in s` on strings. -/
def containsSub (s pat : String) : Bool := containsSubList pat.data s.data

/-- Python `s.startswith(pat)`. -/
def pyStartsWith (s pat : String) : Bool := pat.data.isPrefixOf s.data

/-- A regex word character (`\w`, ASCII). -/
def isWordChar (c : Char) : Bool :=
  ('a' ≤ c && c ≤ 'z') || ('A' ≤ c && c ≤ 'Z') || ('0' ≤ c && c ≤ '9') || c = '_'

/-- Scan for `\bpst\b` in an (already lowercased) character list; the first
argument is the character just before the current position, for the left
word boundary. -/
def hasWordPSTAux : Option Char → List Char → Bool
  | _, [] => false
  | prev, a :: rest =>
    (a = 'p' && (match rest with
      | b :: c :: rest2 =>
        b = 's' && c = 't' &&
          (match prev with | none => true | some q => !(isWordChar q)) &&
          (match rest2 with | [] => true | d :: _ => !(isWordChar d))
      | _ => false)) || hasWordPSTAux (some a) rest

/-- The schedule-table status regex `re.search(r"\bPST\b|AM|PM", s, re.I)`:
for ASCII input, searching case-insensitively is searching the lowercased
string for the lowercased alternatives. -/
def hasTimeMarker (s : String) : Bool :=
  let low := (pyLower s).data
  containsSubList ['a', 'm'] low || containsSubList ['p', 'm'] low || hasWordPSTAux none low

/-- Match `(?:cricflag|flags)/[0-9]+\.(?:png|gif)` directly after the digits:
greedy digits, then a dot and one of the two extensions. -/
def flagIdAfter (rest : List Char) : Option String :=
  let ds := rest.takeWhile (·.isDigit)
  if ds = [] then none
  else
    let r2 := rest.drop ds.length
    if ['.', 'p', 'n', 'g'].isPrefixOf r2 || ['.', 'g', 'i', 'f'].isPrefixOf r2 then
      some (String.mk ds)
    else none

/-- Try the regex `(?:cricflag|flags)/([0-9]+)\.(?:png|gif)` anchored at the
start of `l`; the two alternatives can never both match, so trying them in
order is the regex's backtracking. -/
def flagIdAt (l : List Char) : Option String :=
  if ("cricflag/".data).isPrefixOf l then flagIdAfter (l.drop 9)
  else if ("flags/".data).isPrefixOf l then flagIdAfter (l.drop 6)
  else none

/-- `re.search`: leftmost position wins. -/
def findFlagIdList : List Char → Option String
  | [] => none
  | c :: cs =>
    match flagIdAt (c :: cs) with
    | some r => some r
    | none => findFlagIdList cs

/-- The group captured by `re.search(r"(?:cricflag|flags)/([0-9]+)\.(?:png|gif)", s)`. -/
def findFlagId (s : String) : Option String := findFlagIdList s.data

/-- The two persisted mappings of `mapping.json`. -/
structure FlagsMap where
  id_to_path : List (String × String)
  id_to_name : List (String × String)
deriving DecidableEq, Repr

/-- The filesystem as a finite map from path to file size. -/
structure FS where
  files : List (String × Nat)
deriving DecidableEq, Repr

/-- Python `os.path.exists`. -/
def FS.pathPresent (fs : FS) (p : String) : Bool := (fs.files.lookup p).isSome

/-- Python `os.path.getsize` (0 when absent; only queried on present files). -/
def FS.fileSize (fs : FS) (p : String) : Nat := (fs.files.lookup p).getD 0

/-- Create or overwrite the file at `p` with `n` bytes. -/
def FS.write (fs : FS) (p : String) (n : Nat) : FS :=
  ⟨(p, n) :: fs.files.filter (fun e => !(e.1 == p))⟩

/-- The process state the Flag Resolver touches: disk plus the in-memory
(and persisted) flags mapping. -/
structure World where
  fs : FS
  flags : FlagsMap
deriving DecidableEq, Repr

/-- Python dict assignment `m[k] = v`. -/
def mapInsert (k v : String) (m : List (String × String)) : List (String × String) :=
  (k, v) :: m.filter (fun e => !(e.1 == k))

def FLAGS_RAW_DIR : String := "/workspace/static/flags/raw"

def FLAGS_BY_NAME_DIR : String := "/workspace/static/flags/by-name"

/-- `os.path.join(_FLAGS_RAW_DIR, f"{flag_id}.gif")`. -/
def rawFlagPath (flag_id : String) : String := FLAGS_RAW_DIR ++ "/" ++ flag_id ++ ".gif"

/-- Embeds `_download_flag_gif`: reuse a non-empty raw file, otherwise fetch;
`fetch` yields the response's content length (`none` is a transport failure),
and responses under 100 bytes are rejected without writing. -/
def _download_flag_gif (fetch : String → Option Nat) (flag_id : String) (fs : FS) :
    Option String × FS :=
  if fs.pathPresent (rawFlagPath flag_id) ∧ fs.fileSize (rawFlagPath flag_id) > 0 then
    (some (rawFlagPath flag_id), fs)
  else
    match fetch flag_id with
    | none => (none, fs)
    | some len =>
      if len < 100 then (none, fs)
      else (some (rawFlagPath flag_id), fs.write (rawFlagPath flag_id) len)

/-- Python `existing.lstrip("/")`. -/
def lstripSlash (s : String) : String := String.mk (s.data.dropWhile (· = '/'))

/-- The path check `os.path.join("/workspace", existing.lstrip("/"))`. -/
def workspacePath (rel : String) : String := "/workspace/" ++ lstripSlash rel

/-- Python `os.path.basename`. -/
def baseNameStr (s : String) : String := String.mk ((s.data.reverse.takeWhile (· ≠ '/')).reverse)

/-- The mapping value `f"/static/flags/by-name/{os.path.basename(out_path)}"`. -/
def relByName (p : String) : String := "/static/flags/by-name/" ++ baseNameStr p

/-- The candidate output name for disambiguation suffix `k` (`k ≤ 1` is the
plain name; the loop starts its suffixes at 2). -/
def outCandidate (base : String) (k : Nat) : String :=
  if k ≤ 1 then FLAGS_BY_NAME_DIR ++ "/" ++ base ++ ".gif"
  else FLAGS_BY_NAME_DIR ++ "/" ++ base ++ "-" ++ toString k ++ ".gif"

/-- The `while os.path.exists(out_path)` search of `_ensure_flag_local`: take
the first candidate that is free, or that is already this id's mapped path.
The fuel only bounds the search; at most `fs.files.length` candidates can be
occupied, so with the fuel used below it is never exhausted. -/
def findOutPath (fs : FS) (idPathFid : Option String) (base : String) :
    Nat → Nat → String
  | 0, k => outCandidate base k
  | fuel + 1, k =>
    let c := outCandidate base k
    if fs.pathPresent c then
      if idPathFid = some (relByName c) then c
      else findOutPath fs idPathFid base fuel (k + 1)
    else c

/-- The fresh-materialisation half of `_ensure_flag_local` (after the
existing-mapping fast path has failed): download the raw gif, pick a by-name
location, copy, update both mappings, persist. -/
def _ensure_flag_local_fresh (fetch : String → Option Nat) (flag_id team_name : String)
    (w : World) : Option String × World :=
  match _download_flag_gif fetch flag_id w.fs with
  | (none, fs1) => (none, { w with fs := fs1 })
  | (some raw_path, fs1) =>
    let base := slugify (pyOrStr team_name ("flag-" ++ flag_id))
    let out_path := findOutPath fs1 (w.flags.id_to_path.lookup flag_id) base
      (fs1.files.length + 1) 1
    let fs2 := fs1.write out_path (fs1.fileSize raw_path)
    let rel_path := relByName out_path
    let newPaths := mapInsert flag_id rel_path w.flags.id_to_path
    let newNames :=
      if team_name ≠ "" then mapInsert flag_id team_name w.flags.id_to_name
      else w.flags.id_to_name
    (some rel_path, ⟨fs2, ⟨newPaths, newNames⟩⟩)

/-- Embeds `_ensure_flag_local`. -/
def _ensure_flag_local (fetch : String → Option Nat) (flag_id team_name : String)
    (w : World) : Option String × World :=
  match w.flags.id_to_path.lookup flag_id with
  | some e =>
    if e ≠ "" ∧ w.fs.pathPresent (workspacePath e) then
      if team_name ≠ "" ∧ w.flags.id_to_name.lookup flag_id ≠ some team_name then
        (some e,
          { w with flags := { w.flags with
              id_to_name := mapInsert flag_id team_name w.flags.id_to_name } })
      else (some e, w)
    else _ensure_flag_local_fresh fetch flag_id team_name w
  | none => _ensure_flag_local_fresh fetch flag_id team_name w

/-- Embeds `_local_gif_for_src`: extract a flag id from the reference and look
it up in `id_to_path`. -/
def _local_gif_for_src (w : World) (src : Option String) : Option String :=
  match src with
  | none => none
  | some s =>
    if s = "" then none
    else
      match findFlagId s with
      | none => none
      | some fid => w.flags.id_to_path.lookup fid

/-- Embeds `_norm_src`. -/
def _norm_src (w : World) (src : Option String) : Option String :=
  match src with
  | none => none
  | some s =>
    if s = "" then none
    else
      let loc := _local_gif_for_src w (some s)
      if truthyS loc then loc
      else if pyStartsWith s "data:" then none
      else if pyStartsWith s "//" then some ("https:" ++ s)
      else if pyStartsWith s "/" then some ("https://hamariweb.com" ++ s)
      else some s

/-- An `img` element: the `src` and `data-src` attributes, when present. -/
structure ImgTag where
  src : Option String
  data_src : Option String
deriving DecidableEq, Repr

/-- A `span` inside a card team element: its class list and stripped text. -/
structure SpanTag where
  classes : List String
  text : String
deriving DecidableEq, Repr

/-- The title paragraph of a match card: its full text
(`get_text(" ", strip=True)`) and the stripped text of a nested `small`
status fragment, when one is present. -/
structure PTag where
  text : String
  small : Option String
deriving DecidableEq, Repr

/-- A `.teamname` element of a match card. -/
structure TeamNode where
  spans : List SpanTag
  text : String
  img : Option ImgTag
deriving DecidableEq, Repr

/-- A `.match_update` card: the title paragraph, the team elements, the href
of the first `a[href]` descendant, and the text of the `.match_result`
element, each when present. -/
structure MatchUpdate where
  p : Option PTag
  teamNodes : List TeamNode
  link : Option String
  matchResult : Option String
deriving DecidableEq, Repr

/-- One parsed match listing (the dict appended by both schedule passes). -/
structure MatchRecord where
  title : String
  teams : List String
  team_images : List (Option String)
  status : Option String
  time_or_venue : Option String
  link : Option String
deriving DecidableEq, Repr

/-- First `span` of a team element whose class list lacks `"score"`. -/
def firstNonScoreSpan : List SpanTag → Option SpanTag
  | [] => none
  | sp :: rest => if "score" ∈ sp.classes then firstNonScoreSpan rest else some sp

/-- The card pass's team name: the non-score span's text, else the element's
own text. -/
def teamNodeName (tn : TeamNode) : String :=
  match firstNonScoreSpan tn.spans with
  | some sp => sp.text
  | none => tn.text

/-- Both passes' mapping enrichment: when a raw reference and a name are
truthy and the reference carries a flag id, invoke the Flag Resolver. -/
def enrichImage (fetch : String → Option Nat) (raw : Option String) (name : String)
    (w : World) : Option String × World :=
  match raw with
  | some r =>
    if r ≠ "" ∧ name ≠ "" then
      match findFlagId r with
      | some fid => _ensure_flag_local fetch fid name w
      | none => (none, w)
    else (none, w)
  | none => (none, w)

/-- One `.teamname` element of the card pass: name, image, updated state. -/
def processTeamNode (fetch : String → Option Nat) (tn : TeamNode) (w : World) :
    String × Option String × World :=
  let name_text := teamNodeName tn
  let img_src_raw := match tn.img with
    | some im => im.src
    | none => none
  let (enriched, w1) := enrichImage fetch img_src_raw name_text w
  let img_src := pyOr enriched (_norm_src w1 img_src_raw)
  (name_text, img_src, w1)

/-- The card pass's team loop: names are appended only when non-empty, images
always. -/
def processTeamNodes (fetch : String → Option Nat) :
    List TeamNode → World → List String × List (Option String) × World
  | [], w => ([], [], w)
  | tn :: rest, w =>
    let p1 := processTeamNode fetch tn w
    let p2 := processTeamNodes fetch rest p1.2.2
    ((if p1.1 ≠ "" then p1.1 :: p2.1 else p2.1), p1.2.1 :: p2.2.1, p2.2.2)

/-- The shared discard rule: keep a record only when the (stripped) title, the
team list or the (stripped) time/venue field is non-empty. -/
def keepRecord (title : String) (teams : List String) (tv : Option String) : Bool :=
  (pyStrip title ≠ "" : Bool) || (teams ≠ [] : Bool) ||
    (match tv with
     | some s => (pyStrip s ≠ "" : Bool)
     | none => false)

/-- One `.match_update` card of `_parse_match_updates`. -/
def parseMatchUpdate (fetch : String → Option Nat) (mu : MatchUpdate) (w : World) :
    Option MatchRecord × World :=
  let raw_title := match mu.p with
    | some p => p.text
    | none => ""
  let status_text : Option String := match mu.p with
    | some p => p.small
    | none => none
  let title := match mu.p with
    | some p =>
      match p.small with
      | some st => pyStrip (pyDeleteAll raw_title st)
      | none => raw_title
    | none => raw_title
  let pr := processTeamNodes fetch mu.teamNodes w
  let teams0 := pr.1
  let images0 := pr.2.1
  let w1 := pr.2.2
  let teams := if teams0.length > 2 then teams0.take 2 else teams0
  let team_images := if teams0.length > 2 then images0.take 2 else images0
  let href := _norm_src w1 mu.link
  let time_or_venue := mu.matchResult
  if keepRecord title teams time_or_venue then
    (some ⟨title, teams, team_images, status_text, time_or_venue, href⟩, w1)
  else (none, w1)

/-- Embeds `_parse_match_updates` over the card list of the content root. -/
def _parse_match_updates (fetch : String → Option Nat) :
    List MatchUpdate → World → List MatchRecord × World
  | [], w => ([], w)
  | mu :: rest, w =>
    let p1 := parseMatchUpdate fetch mu w
    let p2 := _parse_match_updates fetch rest p1.2
    (match p1.1 with
     | some r => r :: p2.1
     | none => p2.1, p2.2)

/-- An `a.team_name` link in the schedule table's first cell. -/
structure TeamLinkTag where
  span : Option String
  text : String
  img : Option ImgTag
  href : Option String
deriving DecidableEq, Repr

/-- A `td` cell of a schedule-table row. -/
structure TDCell where
  team_links : List TeamLinkTag
  first_href : Option String
  text : String
deriving DecidableEq, Repr

/-- A `tr` row of the schedule table. -/
structure TRRow where
  tds : List TDCell
deriving DecidableEq, Repr

structure ScheduleTable where
  rows : List TRRow
deriving DecidableEq, Repr

/-- The content root of the schedules page: the `.match_update` cards and the
table found by the heading/wrapper locator heuristics, when one is found
(the locator itself is DOM navigation and is abstracted to this field). -/
structure ScheduleRoot where
  match_updates : List MatchUpdate
  schedule_table : Option ScheduleTable
deriving DecidableEq, Repr

/-- The table pass's team name: the inner span's text when a span exists,
else the link's own text. -/
def teamLinkName (a : TeamLinkTag) : String :=
  match a.span with
  | some t => t
  | none => a.text

/-- The table pass's loop over `a.team_name` links (already limited to two by
the caller): names appended only when non-empty, images always, and the link
taken from the first truthy href while the link is still falsy. -/
def processTeamLinks (fetch : String → Option Nat) :
    List TeamLinkTag → World → Option String →
      List String × List (Option String) × Option String × World
  | [], w, link => ([], [], link, w)
  | a :: rest, w, link =>
    let name := teamLinkName a
    let raw := match a.img with
      | some im => pyOr im.data_src im.src
      | none => none
    let pe := enrichImage fetch raw name w
    let img := pyOr pe.1 (_norm_src pe.2 raw)
    let link1 := if ¬ truthyS link ∧ truthyS a.href then _norm_src pe.2 a.href else link
    let p2 := processTeamLinks fetch rest pe.2 link1
    ((if name ≠ "" then name :: p2.1 else p2.1), img :: p2.2.1, p2.2.2.1, p2.2.2.2)

/-- The table pass's status rule: "Upcoming" exactly when the date/time text
is present and the time-marker regex matches it. -/
def statusForDate (dt : Option String) : Option String :=
  match dt with
  | some s => if hasTimeMarker s then some "Upcoming" else none
  | none => none

/-- The first cell's team extraction of the table pass: at most two
`a.team_name` links are processed; an empty link list yields nothing. -/
def rowTeamsPack (fetch : String → Option Nat) (td0 : TDCell) (w : World) :
    List String × List (Option String) × Option String × World :=
  if td0.team_links ≠ [] then processTeamLinks fetch (td0.team_links.take 2) w none
  else ([], [], none, w)

/-- One data row of `_parse_schedule_table`. -/
def parseScheduleRow (fetch : String → Option Nat) (tr : TRRow) (w : World) :
    Option MatchRecord × World :=
  match tr.tds with
  | [] => (none, w)
  | td0 :: restTds =>
    let pt := rowTeamsPack fetch td0 w
    let teams_names := pt.1
    let team_images := pt.2.1
    let link0 := pt.2.2.1
    let w1 := pt.2.2.2
    let link2 :=
      if ¬ truthyS link0 then
        match td0.first_href with
        | some h => _norm_src w1 (some h)
        | none => link0
      else link0
    let match_type : Option String := match restTds with
      | td1 :: _ => if td1.text = "" then none else some td1.text
      | [] => none
    let date_time : Option String := match restTds with
      | _ :: td2 :: _ => if td2.text = "" then none else some td2.text
      | _ => none
    let title_parts :=
      (if teams_names ≠ [] then [String.intercalate " vs " (teams_names.take 2)] else []) ++
        (match match_type with
         | some m => [m]
         | none => [])
    let title :=
      if title_parts ≠ [] then String.intercalate ", " title_parts
      else
        match match_type with
        | some m => m
        | none => ""
    let status := statusForDate date_time
    if keepRecord title teams_names date_time then
      (some ⟨title, teams_names, team_images, status, date_time, link2⟩, w1)
    else (none, w1)

/-- The row loop of `_parse_schedule_table`. -/
def parseScheduleRows (fetch : String → Option Nat) :
    List TRRow → World → List MatchRecord × World
  | [], w => ([], w)
  | tr :: rest, w =>
    let p1 := parseScheduleRow fetch tr w
    let p2 := parseScheduleRows fetch rest p1.2
    (match p1.1 with
     | some r => r :: p2.1
     | none => p2.1, p2.2)

/-- Embeds `_parse_schedule_table`: nothing when the locator found no table. -/
def _parse_schedule_table (fetch : String → Option Nat) (root : ScheduleRoot) (w : World) :
    List MatchRecord × World :=
  match root.schedule_table with
  | none => ([], w)
  | some t => parseScheduleRows fetch t.rows w

/-- The merge key `f"{title}|{teams joined by -}|{time_or_venue or ''}"`. -/
def key_for (it : MatchRecord) : String :=
  it.title ++ "|" ++ String.intercalate "-" it.teams ++ "|" ++ it.time_or_venue.getD ""

/-- The merge loop with its `seen` set. -/
def mergeAux : List MatchRecord → List String → List MatchRecord
  | [], _ => []
  | it :: rest, seen =>
    if key_for it ∈ seen then mergeAux rest seen
    else it :: mergeAux rest (key_for it :: seen)

/-- The dedupe step of `parse_schedules_html`. -/
def mergeRecords (l : List MatchRecord) : List MatchRecord := mergeAux l []

/-- Embeds `parse_schedules_html`: card pass, then table pass, then merge. -/
def parse_schedules_html (fetch : String → Option Nat) (root : ScheduleRoot) (w : World) :
    List MatchRecord × World :=
  let p1 := _parse_match_updates fetch root.match_updates w
  let p2 := _parse_schedule_table fetch root p1.2
  (mergeRecords (p1.1 ++ p2.1), p2.2)

/-- A table cell as the scorecard parser reads it: its text, the text of its
first `b` descendant and of its first `small` descendant, when present. -/
structure CellTag where
  text : String
  b : Option String
  small : Option String
deriving DecidableEq, Repr

/-- A scorecard table row: its `th` cells and its `td` cells, in order. -/
structure SCRow where
  ths : List CellTag
  tds : List CellTag
deriving DecidableEq, Repr

/-- A table of the scorecard page: the text of its `thead` when present, the
rows of its `tbody` when a `tbody` exists, and all of its rows. -/
structure SCTable where
  thead : Option String
  tbody_rows : Option (List SCRow)
  rows : List SCRow
deriving DecidableEq, Repr

/-- The row source `table.find("tbody") or table`. -/
def tableBodyRows (t : SCTable) : List SCRow :=
  match t.tbody_rows with
  | some rs => rs
  | none => t.rows

/-- The scorecard page: the title text, every table in document order, and the
table located via the "Match Information" heading route, when that route
finds one (the DOM navigation itself is abstracted to this field). -/
structure ScorecardDoc where
  title : Option String
  tables : List SCTable
  info_table : Option SCTable
deriving DecidableEq, Repr

structure BattingEntry where
  name : String
  dismissal : Option String
  runs : Option String
  balls : Option String
  fours : Option String
  sixes : Option String
  sr : Option String
deriving DecidableEq, Repr

structure BowlingEntry where
  name : String
  ov : String
  m : String
  r : String
  w : String
  econ : String
deriving DecidableEq, Repr

structure InningsData where
  batting : List BattingEntry
  extras : Option String
  total : Option String
  note : Option String
  bowling : Option (List BowlingEntry)
  team : Option String
deriving DecidableEq, Repr

/-- The loop assignment `" ".join(_text(td) for td in tds[1:]).strip() or None`. -/
def joinedRest (tdsRest : List CellTag) : Option String :=
  let j := pyStrip (String.intercalate " " (tdsRest.map (fun td => td.text)))
  if j = "" then none else some j

/-- The five statistic cells `tds[1]` … `tds[5]` (absent cells are `None`). -/
def statsOf (tdsRest : List CellTag) : List (Option String) :=
  [(tdsRest.get? 0).map (fun td => td.text), (tdsRest.get? 1).map (fun td => td.text),
   (tdsRest.get? 2).map (fun td => td.text), (tdsRest.get? 3).map (fun td => td.text),
   (tdsRest.get? 4).map (fun td => td.text)]

/-- The batting-row player entry, when the row yields one. -/
def battingRowEntry (row : SCRow) : Option BattingEntry :=
  match row.tds with
  | [] => none
  | td0 :: tdsRest =>
    let label := pyLower td0.text
    if pyStartsWith label "extras" then none
    else if pyStartsWith label "total" then none
    else
      let name := pyOrStr (td0.b.getD "") td0.text
      let dismissal := if td0.small.getD "" = "" then none else some (td0.small.getD "")
      let stats := statsOf tdsRest
      if name ≠ "" ∧ stats.any truthyS ∧ ¬ (pyStartsWith label "did not bat" = true) then
        some ⟨name, dismissal, stats.get? 0 |>.join, stats.get? 1 |>.join,
          stats.get? 2 |>.join, stats.get? 3 |>.join, stats.get? 4 |>.join⟩
      else none

/-- The row loop of `_parse_batting_table`, with the loop's accumulator. -/
def battingLoop : List SCRow → List BattingEntry → Option String → Option String →
    List BattingEntry × Option String × Option String
  | [], bat, ex, tot => (bat, ex, tot)
  | row :: rest, bat, ex, tot =>
    match row.tds with
    | [] => battingLoop rest bat ex tot
    | td0 :: tdsRest =>
      let label := pyLower td0.text
      if pyStartsWith label "extras" then battingLoop rest bat (joinedRest tdsRest) tot
      else if pyStartsWith label "total" then battingLoop rest bat ex (joinedRest tdsRest)
      else
        match battingRowEntry row with
        | some e => battingLoop rest (bat ++ [e]) ex tot
        | none => battingLoop rest bat ex tot

/-- Embeds `_parse_batting_table` (its `note` field is never assigned). -/
def _parse_batting_table (rows : List SCRow) :
    List BattingEntry × Option String × Option String :=
  battingLoop rows [] none none

/-- Embeds `_parse_bowling_table`: rows with at least six cells and a
non-empty name, copied verbatim. -/
def _parse_bowling_table (rows : List SCRow) : List BowlingEntry :=
  rows.filterMap (fun row =>
    match row.tds with
    | t0 :: t1 :: t2 :: t3 :: t4 :: t5 :: _ =>
      if t0.text ≠ "" then some ⟨t0.text, t1.text, t2.text, t3.text, t4.text, t5.text⟩
      else none
    | _ => none)

/-- Python `s.split(pat, 1)` when `pat` occurs: the pieces before and after the first
occurrence. -/
def splitFirstList (pat : List Char) : List Char → Option (List Char × List Char)
  | [] => if pat.isPrefixOf ([] : List Char) then some ([], []) else none
  | c :: cs =>
    if pat.isPrefixOf (c :: cs) then some ([], (c :: cs).drop pat.length)
    else (splitFirstList pat cs).map (fun q => (c :: q.1, q.2))

/-- Python `s.split(pat, 1)[0]`. -/
def splitHeadBefore (s pat : String) : String :=
  match splitFirstList pat.data s.data with
  | some q => String.mk q.1
  | none => s

/-- Embeds `_extract_title_and_teams`. -/
def _extract_title_and_teams (titleTag : Option String) : Option String × List String :=
  let title : Option String := match titleTag with
    | some t => if t = "" then none else some t
    | none => none
  match title with
  | some t =>
    match splitFirstList (" VS ").data t.data with
    | some q =>
      let left := pyStrip (String.mk q.1)
      let right := pyStrip (splitHeadBefore (String.mk q.2) ",")
      if left ≠ "" ∧ right ≠ "" then (some t, [left, right]) else (some t, [])
    | none => (some t, [])
  | none => (none, [])

/-- Python dict assignment on an association list: overwrite in place, else
append. -/
def dictInsert (k v : String) (m : List (String × String)) : List (String × String) :=
  if (m.lookup k).isSome then m.map (fun e => if e.1 == k then (k, v) else e)
  else m ++ [(k, v)]

/-- The row loop of `_parse_match_info`. -/
def infoLoop : List SCRow → List (String × String) → List (String × String)
  | [], acc => acc
  | row :: rest, acc =>
    let key := ((row.ths.head?).map (fun c => c.text)).getD ""
    let val := ((row.tds.head?).map (fun c => c.text)).getD ""
    if key ≠ "" ∧ val ≠ "" then infoLoop rest (dictInsert key val acc)
    else infoLoop rest acc

/-- Embeds `_parse_match_info`: the heading-located table, else the first
table of the document; every row with both a header and a data cell. -/
def _parse_match_info (doc : ScorecardDoc) : List (String × String) :=
  let table := match doc.info_table with
    | some t => some t
    | none => doc.tables.head?
  match table with
  | none => []
  | some t => infoLoop t.rows []

/-- A table is a batting table when its `thead` text contains "batting". -/
def isBattingTable (t : SCTable) : Bool :=
  match t.thead with
  | none => false
  | some h => containsSub (pyLower h) "batting"

/-- The classification `elif "bowling" in head`: headed, not batting, and containing "bowling". -/
def isBowlingTable (t : SCTable) : Bool :=
  match t.thead with
  | none => false
  | some h => !(containsSub (pyLower h) "batting") && containsSub (pyLower h) "bowling"

structure ScorecardResult where
  ok : Bool
  title : Option String
  teams : List String
  info : List (String × String)
  innings : List InningsData
  batting_count : Nat
  bowling_count : Nat
deriving DecidableEq, Repr

/-- The innings loop of `parse_scorecard_html`: pair the idx-th batting table
with the idx-th bowling table and name the innings by cyclic team indexing. -/
def buildInnings (teams : List String) (bowling_tables : List SCTable) :
    List SCTable → Nat → List InningsData
  | [], _ => []
  | bt :: rest, idx =>
    let parsed := _parse_batting_table (tableBodyRows bt)
    let bowl := (bowling_tables.get? idx).map (fun b => _parse_bowling_table (tableBodyRows b))
    let team := teams.get? (idx % teams.length)
    ⟨parsed.1, parsed.2.1, parsed.2.2, none, bowl, team⟩ ::
      buildInnings teams bowling_tables rest (idx + 1)

/-- Embeds `parse_scorecard_html`; the `source` sub-dict's two counts are the
`batting_count` and `bowling_count` fields. -/
def parse_scorecard_html (doc : ScorecardDoc) : ScorecardResult :=
  let tt := _extract_title_and_teams doc.title
  let batting_tables := doc.tables.filter isBattingTable
  let bowling_tables := doc.tables.filter isBowlingTable
  { ok := true
    title := tt.1
    teams := tt.2
    info := _parse_match_info doc
    innings := buildInnings tt.2 bowling_tables batting_tables 0
    batting_count := batting_tables.length
    bowling_count := bowling_tables.length }

/-- A fetch oracle whose every request fails. -/
def exFetch : String → Option Nat := fun _ => none

/-- Empty disk and empty mapping. -/
def exWorld : World := ⟨⟨[]⟩, ⟨[], []⟩⟩

/-- A schedule-table row with a team cell, a match-type cell and a dated cell. -/
def exRow1 : TRRow := ⟨[⟨[], none, "teamscell"⟩, ⟨[], none, "T20"⟩, ⟨[], none, "12 May 2024, 3:00 PM"⟩]⟩

def exSchedRoot : ScheduleRoot := ⟨[], some ⟨[exRow1]⟩⟩

/-- The record the table pass produces for `exRow1`. -/
def exRec1 : MatchRecord :=
  ⟨"T20", [], [], some "Upcoming", some "12 May 2024, 3:00 PM", none⟩

/-- A card with empty title, no teams and empty time/venue. -/
def exEmptyCard : MatchUpdate := ⟨some ⟨"", some ""⟩, [], none, some ""⟩

/-- A card whose only non-empty field is the time/venue text. -/
def exVenueCard : MatchUpdate := ⟨none, [], none, some "Gaddafi Stadium, Lahore"⟩

/-- The record the card pass produces for `exVenueCard`. -/
def exVenueRec : MatchRecord := ⟨"", [], [], none, some "Gaddafi Stadium, Lahore", none⟩

/-- A card with three team elements of which the middle one has no name. -/
def exThreeNodeCard : MatchUpdate :=
  ⟨none, [⟨[], "Team A", none⟩, ⟨[], "", none⟩, ⟨[], "Team B", none⟩], none, none⟩

/-- A card whose title contains the status text twice. -/
def exC10Card : MatchUpdate := ⟨some ⟨"Live India vs Pak Live", some "Live"⟩, [], none, some "Today"⟩

/-- The record the card pass produces for `exC10Card`. -/
def exC10Rec : MatchRecord := ⟨"India vs Pak", [], [], some "Live", some "Today", none⟩

/-- A record is non-trivial when its title, team list or time/venue field is
non-empty. -/
def NonTrivialRecord (r : MatchRecord) : Prop :=
  r.title ≠ "" ∨ r.teams ≠ [] ∨ ∃ s, r.time_or_venue = some s ∧ s ≠ ""

/-- A root holding only the venue-only card. -/
def exCardRoot : ScheduleRoot := ⟨[exVenueCard], none⟩

/-- A world whose mapping resolves flag id 5 to a local path. -/
def exMapWorld : World := ⟨⟨[]⟩, ⟨[("5", "/static/flags/by-name/pak.gif")], []⟩⟩

/-- Witness for C2 amended at a concrete two-team row. -/
def exRow2 : TRRow :=
  ⟨[⟨[⟨some "Team C", "Team C", none, none⟩, ⟨some "Team D", "Team D", none, none⟩],
    none, "cell"⟩]⟩

/-- A card-pass record and a table-pass record sharing a merge key. -/
def exCardRec : MatchRecord := ⟨"X", ["A", "B"], [], some "Live", some "T", none⟩

def exTableRec : MatchRecord := ⟨"X", ["A", "B"], [], none, some "T", none⟩

/-- The row's first cell (lowercased) starts with "extras". -/
def isExtrasRow (row : SCRow) : Bool :=
  match row.tds with
  | [] => false
  | td0 :: _ => pyStartsWith (pyLower td0.text) "extras"

/-- The row's first cell (lowercased) starts with "total". -/
def isTotalRow (row : SCRow) : Bool :=
  match row.tds with
  | [] => false
  | td0 :: _ => pyStartsWith (pyLower td0.text) "total"

/-- The row's first cell (lowercased) starts with "did not bat". -/
def isDnbRow (row : SCRow) : Bool :=
  match row.tds with
  | [] => false
  | td0 :: _ => pyStartsWith (pyLower td0.text) "did not bat"

/-- The player name a row yields: the bold text, else the cell text. -/
def rowName (row : SCRow) : String :=
  match row.tds with
  | [] => ""
  | td0 :: _ => pyOrStr (td0.b.getD "") td0.text

/-- Whether any of the row's five statistic cells is present and non-empty. -/
def rowStatsAny (row : SCRow) : Bool :=
  match row.tds with
  | [] => false
  | _ :: rest => (statsOf rest).any truthyS

/-- The final value of a loop variable that every `p`-labelled row overwrites
with the space-joined text of its remaining cells. -/
def lastLabeledFrom (p : SCRow → Bool) : List SCRow → Option String → Option String
  | [], dflt => dflt
  | row :: rest, dflt =>
    if p row then lastLabeledFrom p rest (joinedRest row.tds.tail)
    else lastLabeledFrom p rest dflt

/-- A batting row labelled "Extras". -/
def exExtrasRow : SCRow := ⟨[], [⟨"Extras (b 4, lb 2)", none, none⟩, ⟨"10", none, none⟩]⟩

/-- A "Did not bat" batting row. -/
def exDnbRow : SCRow := ⟨[], [⟨"Did not bat: Smith", none, none⟩, ⟨"", none, none⟩]⟩

/-- An ordinary player batting row. -/
def exPlayerRow : SCRow :=
  ⟨[], [⟨"Root c X b Y", some "Root", some "c X b Y"⟩, ⟨"45", none, none⟩,
    ⟨"30", none, none⟩, ⟨"5", none, none⟩, ⟨"1", none, none⟩, ⟨"150.0", none, none⟩]⟩

/-- The by-name file name (without directory) for suffix `k`. -/
def outCandName (base : String) (k : Nat) : String :=
  if k ≤ 1 then base ++ ".gif" else base ++ "-" ++ toString k ++ ".gif"

/-! ## Theorems -/

lemma mem_replaceRunsAux {p : Char → Bool} {r : Char} :
    ∀ {l : List Char} {b : Bool} {c : Char}, c ∈ replaceRunsAux p r l b →
      c = r ∨ (p c = false ∧ c ∈ l) := by
  intro l
  induction l with
  | nil => intro b c h; simp [replaceRunsAux] at h
  | cons a as ih =>
    intro b c h
    simp only [replaceRunsAux] at h
    by_cases hp : p a = true
    · rw [if_pos hp] at h
      cases b with
      | true =>
        rcases ih h with h' | ⟨h1, h2⟩
        · exact Or.inl h'
        · exact Or.inr ⟨h1, List.mem_cons_of_mem _ h2⟩
      | false =>
        rcases List.mem_cons.mp h with h' | h'
        · exact Or.inl h'
        · rcases ih h' with h'' | ⟨h1, h2⟩
          · exact Or.inl h''
          · exact Or.inr ⟨h1, List.mem_cons_of_mem _ h2⟩
    · rw [if_neg hp] at h
      rcases List.mem_cons.mp h with h' | h'
      · subst h'
        exact Or.inr ⟨Bool.eq_false_iff.mpr hp, List.mem_cons_self _ _⟩
      · rcases ih h' with h'' | ⟨h1, h2⟩
        · exact Or.inl h''
        · exact Or.inr ⟨h1, List.mem_cons_of_mem _ h2⟩

lemma head?_replaceRunsAux_true {p : Char → Bool} {r : Char} :
    ∀ {l : List Char} {c : Char}, (replaceRunsAux p r l true).head? = some c →
      p c = false := by
  intro l
  induction l with
  | nil => intro c h; simp [replaceRunsAux] at h
  | cons a as ih =>
    intro c h
    simp only [replaceRunsAux] at h
    by_cases hp : p a = true
    · rw [if_pos hp] at h; exact ih h
    · rw [if_neg hp] at h
      simp only [List.head?_cons, Option.some.injEq] at h
      subst h
      exact Bool.eq_false_iff.mpr hp

lemma chain'_replaceRunsAux {p : Char → Bool} {r : Char} :
    ∀ (l : List Char) (b : Bool),
      List.Chain' (fun a c => ¬(p a = true ∧ p c = true)) (replaceRunsAux p r l b) := by
  intro l
  induction l with
  | nil => intro b; simp [replaceRunsAux]
  | cons a as ih =>
    intro b
    simp only [replaceRunsAux]
    by_cases hp : p a = true
    · rw [if_pos hp]
      cases b with
      | true => exact ih true
      | false =>
        rw [if_neg (show ¬(false = true) by decide)]
        rw [List.chain'_cons']
        refine ⟨?_, ih true⟩
        intro y hy
        have := head?_replaceRunsAux_true (Option.mem_def.mp hy)
        simp [this]
    · rw [if_neg hp]
      rw [List.chain'_cons']
      refine ⟨?_, ih false⟩
      intro y _
      simp [hp]

lemma replaceRunsAux_fix {p : Char → Bool} {r : Char} :
    ∀ {l : List Char}, (∀ c ∈ l, p c = true → c = r) →
      List.Chain' (fun a c => ¬(p a = true ∧ p c = true)) l →
      (replaceRunsAux p r l false = l ∧
        ((∀ c, l.head? = some c → p c = false) → replaceRunsAux p r l true = l)) := by
  intro l
  induction l with
  | nil => intro _ _; exact ⟨rfl, fun _ => rfl⟩
  | cons a as ih =>
    intro hall hch
    have hall' : ∀ c ∈ as, p c = true → c = r := fun c hc => hall c (List.mem_cons_of_mem _ hc)
    have hch' : List.Chain' (fun a c => ¬(p a = true ∧ p c = true)) as := hch.tail
    have ihs := ih hall' hch'
    constructor
    · simp only [replaceRunsAux]
      by_cases hp : p a = true
      · rw [if_pos hp, if_neg (show ¬(false = true) by decide)]
        have ha : a = r := hall a (List.mem_cons_self _ _) hp
        have hhead : ∀ c, as.head? = some c → p c = false := by
          intro c hc
          cases as with
          | nil => simp at hc
          | cons d ds =>
            simp only [List.head?_cons, Option.some.injEq] at hc
            subst hc
            have hrel := (List.chain'_cons'.mp hch).1 d (by simp)
            by_contra hpc
            exact hrel ⟨hp, by simpa using hpc⟩
        rw [ihs.2 hhead, ha]
      · rw [if_neg hp, ihs.1]
    · intro hhead0
      simp only [replaceRunsAux]
      have hp : p a = false := hhead0 a (by simp)
      rw [if_neg (by simp [hp]), ihs.1]

lemma dropWhile_eq_self_of {p : Char → Bool} {l : List Char}
    (h : ∀ c, l.head? = some c → p c = false) : l.dropWhile p = l := by
  cases l with
  | nil => rfl
  | cons a as =>
    have := h a (by simp)
    simp [List.dropWhile_cons, this]

lemma head?_dropWhile {p : Char → Bool} :
    ∀ {l : List Char} {c : Char}, (l.dropWhile p).head? = some c → p c = false := by
  intro l
  induction l with
  | nil => intro c h; simp at h
  | cons a as ih =>
    intro c h
    by_cases hp : p a = true
    · rw [List.dropWhile_cons, if_pos hp] at h; exact ih h
    · rw [List.dropWhile_cons, if_neg hp] at h
      simp only [List.head?_cons, Option.some.injEq] at h
      subst h
      exact Bool.eq_false_iff.mpr hp

lemma getLast?_dropWhile_ne_nil {p : Char → Bool} {l : List Char}
    (h : l.dropWhile p ≠ []) : (l.dropWhile p).getLast? = l.getLast? := by
  obtain ⟨pre, hpre⟩ := List.dropWhile_suffix (l := l) p
  conv_rhs => rw [← hpre]
  rw [List.getLast?_append]
  cases hg : (l.dropWhile p).getLast? with
  | none => exact absurd (List.getLast?_eq_none_iff.mp hg) h
  | some c => simp

lemma stripCharList_isInfix (t : Char) (l : List Char) : stripCharList t l <:+: l := by
  have h1 : l.dropWhile (· = t) <:+ l := List.dropWhile_suffix _
  have h2 : (l.dropWhile (· = t)).reverse.dropWhile (· = t) <:+ (l.dropWhile (· = t)).reverse :=
    List.dropWhile_suffix _
  have h3 : stripCharList t l <+: l.dropWhile (· = t) := by
    rw [← List.reverse_suffix]
    simpa [stripCharList] using h2
  exact h3.isInfix.trans h1.isInfix

lemma head?_stripCharList {t : Char} {l : List Char} {c : Char}
    (h : (stripCharList t l).head? = some c) : ¬(c = t) := by
  unfold stripCharList at h
  rw [List.head?_reverse] at h
  have hne : (l.dropWhile (· = t)).reverse.dropWhile (· = t) ≠ [] := by
    intro he; rw [he] at h; simp at h
  rw [getLast?_dropWhile_ne_nil hne, List.getLast?_reverse] at h
  have := head?_dropWhile h
  simpa using this

lemma getLast?_stripCharList {t : Char} {l : List Char} {c : Char}
    (h : (stripCharList t l).getLast? = some c) : ¬(c = t) := by
  unfold stripCharList at h
  rw [List.getLast?_reverse] at h
  have := head?_dropWhile h
  simpa using this

lemma stripCharList_eq_self {t : Char} {l : List Char}
    (hh : ∀ c, l.head? = some c → ¬(c = t)) (hl : ∀ c, l.getLast? = some c → ¬(c = t)) :
    stripCharList t l = l := by
  have h1 : l.dropWhile (· = t) = l :=
    dropWhile_eq_self_of (fun c hc => by simpa using hh c hc)
  have h2 : l.reverse.dropWhile (· = t) = l.reverse :=
    dropWhile_eq_self_of (fun c hc => by
      rw [List.head?_reverse] at hc
      simpa using hl c hc)
  unfold stripCharList
  rw [h1, h2, List.reverse_reverse]

lemma toNat_bounds_of_isLowerAlnum {c : Char} (h : isLowerAlnum c = true) :
    (97 ≤ c.toNat ∧ c.toNat ≤ 122) ∨ (48 ≤ c.toNat ∧ c.toNat ≤ 57) := by
  simp only [isLowerAlnum, Bool.or_eq_true, Bool.and_eq_true, decide_eq_true_eq] at h
  rcases h with ⟨h1, h2⟩ | ⟨h1, h2⟩
  · left
    rw [Char.le_def, UInt32.le_def, BitVec.le_def] at h1 h2
    constructor
    · simpa [Char.toNat, UInt32.toNat] using h1
    · simpa [Char.toNat, UInt32.toNat] using h2
  · right
    rw [Char.le_def, UInt32.le_def, BitVec.le_def] at h1 h2
    constructor
    · simpa [Char.toNat, UInt32.toNat] using h1
    · simpa [Char.toNat, UInt32.toNat] using h2

lemma toNat_bounds_of_isSlugChar {c : Char} (h : isSlugChar c = true) :
    (97 ≤ c.toNat ∧ c.toNat ≤ 122) ∨ (48 ≤ c.toNat ∧ c.toNat ≤ 57) ∨ c.toNat = 45 := by
  simp only [isSlugChar, Bool.or_eq_true, decide_eq_true_eq] at h
  rcases h with h | h
  · rcases toNat_bounds_of_isLowerAlnum h with h' | h'
    · exact Or.inl h'
    · exact Or.inr (Or.inl h')
  · subst h; right; right; decide

lemma toLower_eq_self_of_isSlugChar {c : Char} (h : isSlugChar c = true) :
    Char.toLower c = c := by
  have hb := toNat_bounds_of_isSlugChar h
  show (let n := c.toNat; if n ≥ 65 ∧ n ≤ 90 then Char.ofNat (n + 32) else c) = c
  simp only
  rw [if_neg ?_]
  rcases hb with ⟨h1, h2⟩ | ⟨h1, h2⟩ | h1 <;> omega

lemma isPySpace_eq_false_of_isSlugChar {c : Char} (h : isSlugChar c = true) :
    isPySpace c = false := by
  have hb := toNat_bounds_of_isSlugChar h
  cases hc : isPySpace c
  · rfl
  · exfalso
    have hd : c = ' ' ∨ c = '\t' ∨ c = '\n' ∨ c = '\r' ∨ c = '\x0b' ∨ c = '\x0c' := by
      simpa [isPySpace, or_assoc] using hc
    rcases hd with he | he | he | he | he | he <;> subst he <;>
      rcases hb with ⟨h1, _⟩ | ⟨h1, _⟩ | h1 <;> revert h1 <;> decide

lemma dropWhile_eq_self_of_all {p : Char → Bool} {l : List Char}
    (h : ∀ c ∈ l, p c = false) : l.dropWhile p = l :=
  dropWhile_eq_self_of (fun c hc => h c (List.mem_of_mem_head? (Option.mem_def.mpr hc)))

lemma pyStripList_eq_self {l : List Char} (h : ∀ c ∈ l, isSlugChar c = true) :
    pyStripList l = l := by
  unfold pyStripList
  rw [dropWhile_eq_self_of_all (fun c hc => isPySpace_eq_false_of_isSlugChar (h c hc))]
  rw [dropWhile_eq_self_of_all (fun c hc =>
    isPySpace_eq_false_of_isSlugChar (h c (List.mem_reverse.mp hc)))]
  exact l.reverse_reverse

lemma map_eq_self_of {f : Char → Char} :
    ∀ {l : List Char}, (∀ c ∈ l, f c = c) → l.map f = l := by
  intro l
  induction l with
  | nil => intro _; rfl
  | cons a as ih =>
    intro h
    simp only [List.map_cons]
    rw [h a (List.mem_cons_self _ _), ih (fun c hc => h c (List.mem_cons_of_mem _ hc))]

lemma chain'_of_chain'_mem {R S : Char → Char → Prop} :
    ∀ {l : List Char}, List.Chain' R l → (∀ a ∈ l, ∀ b ∈ l, R a b → S a b) →
      List.Chain' S l := by
  intro l
  induction l with
  | nil => intro _ _; simp
  | cons a as ih =>
    intro hch h
    rw [List.chain'_cons'] at hch ⊢
    refine ⟨?_, ih hch.2 (fun x hx y hy => h x (List.mem_cons_of_mem _ hx) y (List.mem_cons_of_mem _ hy))⟩
    intro y hy
    exact h a (List.mem_cons_self _ _) y
      (List.mem_cons_of_mem _ (List.mem_of_mem_head? hy)) (hch.1 y hy)

lemma noDoubleHyphen_iff :
    ∀ l : List Char,
      noDoubleHyphen l = true ↔ List.Chain' (fun a b => ¬(a = '-' ∧ b = '-')) l
  | [] => by simp [noDoubleHyphen]
  | [a] => by simp [noDoubleHyphen]
  | a :: b :: r => by
    rw [List.chain'_cons, ← noDoubleHyphen_iff (b :: r)]
    simp [noDoubleHyphen, not_and, and_comm]
    tauto

lemma chain'_of_isInfix {R : Char → Char → Prop} {l1 l : List Char}
    (h : List.Chain' R l) (hsub : l1 <:+: l) : List.Chain' R l1 :=
  List.Chain'.infix h hsub

lemma slugify_shape (s : String) : SlugShape (slugify s) := by
  unfold slugify
  set s1 := (pyLower (pyStrip s)).data with hs1
  set s2 := replaceRuns (fun c => !(isLowerAlnum c)) '-' s1 with hs2
  set s3 := stripCharList '-' (replaceRuns (fun c => c = '-') '-' s2) with hs3
  by_cases h0 : s3 = []
  · rw [if_pos h0]; decide
  · rw [if_neg h0]
    have hinf3 : s3 <:+: replaceRuns (fun c => c = '-') '-' s2 := stripCharList_isInfix _ _
    have hmem : ∀ c ∈ s3, isSlugChar c = true := by
      intro c hc
      have hc2 := hinf3.mem hc
      rcases mem_replaceRunsAux hc2 with h | ⟨_, h2⟩
      · simp [isSlugChar, h]
      · rcases mem_replaceRunsAux h2 with h | ⟨h1, _⟩
        · simp [isSlugChar, h]
        · simp only [Bool.not_eq_false'] at h1
          simp [isSlugChar, h1]
    refine ⟨?_, hmem, ?_, ?_, ?_⟩
    · intro he
      apply h0
      have : (String.mk s3).data = ("" : String).data := by rw [he]
      simpa using this
    · intro he
      exact (head?_stripCharList he) rfl
    · intro he
      exact (getLast?_stripCharList he) rfl
    · have hch : List.Chain'
          (fun a b => ¬((fun c => decide (c = '-')) a = true ∧ (fun c => decide (c = '-')) b = true))
          (replaceRuns (fun c => c = '-') '-' s2) := chain'_replaceRunsAux _ _
      have hch2 : List.Chain' (fun a b => ¬(a = '-' ∧ b = '-'))
          (replaceRuns (fun c => c = '-') '-' s2) := by
        refine hch.imp ?_
        intro a b hab habs
        exact hab ⟨by simpa using habs.1, by simpa using habs.2⟩
      exact (noDoubleHyphen_iff _).mpr (chain'_of_isInfix hch2 hinf3)

lemma slugify_fix {t : String} (h : SlugShape t) : slugify t = t := by
  obtain ⟨hne, hmem, hhead, hlast, hchb⟩ := h
  have hch : List.Chain' (fun a b => ¬(a = '-' ∧ b = '-')) t.data :=
    (noDoubleHyphen_iff _).mp hchb
  have hstrip : pyStrip t = t := by
    show String.mk (pyStripList t.data) = t
    rw [pyStripList_eq_self hmem]
  have hlow : pyLower t = t := by
    show String.mk (t.data.map Char.toLower) = t
    rw [map_eq_self_of (fun c hc => toLower_eq_self_of_isSlugChar (hmem c hc))]
  have hr1 : replaceRuns (fun c => !(isLowerAlnum c)) '-' t.data = t.data := by
    refine (replaceRunsAux_fix ?_ ?_).1
    · intro c hc hp
      simp only [Bool.not_eq_eq_eq_not, Bool.not_true] at hp
      have := hmem c hc
      simp only [isSlugChar, Bool.or_eq_true, decide_eq_true_eq] at this
      rcases this with h' | h'
      · rw [h'] at hp; exact absurd hp (by simp)
      · exact h'
    · refine chain'_of_chain'_mem hch ?_
      intro a ha b hb hab ⟨hpa, hpb⟩
      simp only [Bool.not_eq_eq_eq_not, Bool.not_true] at hpa hpb
      have ha' := hmem a ha
      have hb' := hmem b hb
      simp only [isSlugChar, Bool.or_eq_true, decide_eq_true_eq] at ha' hb'
      rcases ha' with h' | h'
      · rw [h'] at hpa; exact absurd hpa (by simp)
      · rcases hb' with h'' | h''
        · rw [h''] at hpb; exact absurd hpb (by simp)
        · exact hab ⟨h', h''⟩
  have hr2 : replaceRuns (fun c => c = '-') '-' t.data = t.data := by
    refine (replaceRunsAux_fix ?_ ?_).1
    · intro c _ hp
      simpa using hp
    · refine hch.imp ?_
      intro a b hab ⟨hpa, hpb⟩
      exact hab ⟨by simpa using hpa, by simpa using hpb⟩
  have hs : stripCharList '-' t.data = t.data := by
    refine stripCharList_eq_self ?_ ?_
    · intro c hc he
      exact hhead (by rw [hc, he])
    · intro c hc he
      exact hlast (by rw [hc, he])
  have hdata : t.data ≠ [] := by
    intro hdd
    exact hne (String.ext (by simp [hdd]))
  simp only [slugify, hstrip, hlow, hr1, hr2, hs]
  rw [if_neg hdata]

example : findFlagId "https://hamariweb.com/cricflag/123.png?x=1" = some "123" := by decide

example : findFlagId "//x/flags/7.gif" = some "7" := by decide

example : findFlagId "flags/x.gif" = none := by decide

example : hasTimeMarker "12 May 2024, 3:00 PM" = true := by decide

example : hasTimeMarker "12 May 2024" = false := by decide

example : hasTimeMarker "7:00 pst" = true := by decide

example : hasTimeMarker "apstx" = false := by decide

/-- C5: for every input string, slugify returns a non-empty lowercase token of
alphanumeric runs separated by single hyphens with no leading or trailing
hyphen (the fixed placeholder "unknown" also has this shape), and slugify is
idempotent on its own output. -/
theorem C5_slugify_shape_idempotent (s : String) :
    SlugShape (slugify s) ∧ slugify (slugify s) = slugify s :=
  ⟨slugify_shape s, slugify_fix (slugify_shape s)⟩

/-- Witness for C5 at a concrete punctuated input. -/
theorem C5_slugify_witness :
    SlugShape (slugify " A  b!,c ") ∧ slugify (slugify " A  b!,c ") = slugify " A  b!,c " :=
  C5_slugify_shape_idempotent " A  b!,c "

/-- C9: scorecard extraction is a total function of the document model (missing
or malformed structure only yields empty collections), always answers with
`ok = true`, and carries the counts of detected batting and bowling tables. -/
theorem C9_scorecard_total_ok (doc : ScorecardDoc) :
    (parse_scorecard_html doc).ok = true ∧
    (parse_scorecard_html doc).batting_count = (doc.tables.filter isBattingTable).length ∧
    (parse_scorecard_html doc).bowling_count = (doc.tables.filter isBowlingTable).length :=
  ⟨rfl, rfl, rfl⟩

/-- C6: the Source Normalizer maps absent/empty references to nothing, returns
a known flag's resolved local path with precedence over every other rule, and
otherwise drops `data:` references, completes `//` and `/` references, and
passes everything else through unchanged. -/
theorem C6_norm_src_cases (w : World) :
    _norm_src w none = none ∧
    _norm_src w (some "") = none ∧
    (∀ s fid p, s ≠ "" → findFlagId s = some fid →
      w.flags.id_to_path.lookup fid = some p → p ≠ "" →
      _norm_src w (some s) = some p) ∧
    (∀ s, s ≠ "" → truthyS (_local_gif_for_src w (some s)) = false →
      (pyStartsWith s "data:" = true → _norm_src w (some s) = none) ∧
      (pyStartsWith s "data:" = false → pyStartsWith s "//" = true →
        _norm_src w (some s) = some ("https:" ++ s)) ∧
      (pyStartsWith s "data:" = false → pyStartsWith s "//" = false →
        pyStartsWith s "/" = true → _norm_src w (some s) = some ("https://hamariweb.com" ++ s)) ∧
      (pyStartsWith s "data:" = false → pyStartsWith s "/" = false →
        _norm_src w (some s) = some s)) := by
  refine ⟨rfl, rfl, ?_, ?_⟩
  · intro s fid p hs hfind hlook hp
    simp only [_norm_src, _local_gif_for_src, if_neg hs, hfind, hlook]
    have ht : truthyS (some p) = true := by simp [truthyS, hp]
    rw [if_pos ht]
  · intro s hs hloc
    refine ⟨?_, ?_, ?_, ?_⟩
    · intro hdata
      simp only [_norm_src, if_neg hs, hloc, if_pos hdata]
      simp
    · intro hdata hslash
      simp only [_norm_src, if_neg hs, hloc, hdata, hslash]
      simp
    · intro hdata hss hsl
      simp only [_norm_src, if_neg hs, hloc, hdata, hss, hsl]
      simp
    · intro hdata hsl
      have hss : pyStartsWith s "//" = false := by
        by_contra hb
        rw [Bool.not_eq_false] at hb
        have h2 : ("//".data) <+: s.data := List.isPrefixOf_iff_prefix.mp hb
        have h1 : ("/".data) <+: s.data := List.IsPrefix.trans ⟨['/'], by decide⟩ h2
        rw [show pyStartsWith s "/" = true from List.isPrefixOf_iff_prefix.mpr h1] at hsl
        exact absurd hsl (by simp)
      simp only [_norm_src, if_neg hs, hloc, hdata, hss, hsl]
      simp

lemma processTeamNodes_len (fetch : String → Option Nat) :
    ∀ (tns : List TeamNode) (w : World),
      (processTeamNodes fetch tns w).2.1.length = tns.length ∧
      (processTeamNodes fetch tns w).1.length ≤ (processTeamNodes fetch tns w).2.1.length := by
  intro tns
  induction tns with
  | nil => intro w; simp [processTeamNodes]
  | cons tn rest ih =>
    intro w
    simp only [processTeamNodes]
    have ihs := ih (processTeamNode fetch tn w).2.2
    constructor
    · simp [ihs.1]
    · by_cases hn : (processTeamNode fetch tn w).1 ≠ ""
      · rw [if_pos hn]
        simpa using Nat.succ_le_succ ihs.2
      · rw [if_neg hn]
        simp only [List.length_cons]
        exact Nat.le_succ_of_le ihs.2

lemma processTeamNodes_len_eq (fetch : String → Option Nat) :
    ∀ (tns : List TeamNode) (w : World), (∀ tn ∈ tns, teamNodeName tn ≠ "") →
      (processTeamNodes fetch tns w).1.length = tns.length := by
  intro tns
  induction tns with
  | nil => intro w _; simp [processTeamNodes]
  | cons tn rest ih =>
    intro w hall
    simp only [processTeamNodes]
    have hn : (processTeamNode fetch tn w).1 ≠ "" := by
      have : (processTeamNode fetch tn w).1 = teamNodeName tn := rfl
      rw [this]
      exact hall tn (List.mem_cons_self _ _)
    rw [if_pos hn]
    simp [ih _ (fun x hx => hall x (List.mem_cons_of_mem _ hx))]

lemma processTeamLinks_len (fetch : String → Option Nat) :
    ∀ (links : List TeamLinkTag) (w : World) (link : Option String),
      (processTeamLinks fetch links w link).2.1.length = links.length ∧
      (processTeamLinks fetch links w link).1.length ≤
        (processTeamLinks fetch links w link).2.1.length := by
  intro links
  induction links with
  | nil => intro w link; simp [processTeamLinks]
  | cons a rest ih =>
    intro w link
    simp only [processTeamLinks]
    constructor
    · simp only [List.length_cons]
      rw [(ih _ _).1]
    · by_cases hn : teamLinkName a ≠ ""
      · rw [if_pos hn]
        simp only [List.length_cons]
        exact Nat.succ_le_succ (ih _ _).2
      · rw [if_neg hn]
        simp only [List.length_cons]
        exact Nat.le_succ_of_le (ih _ _).2

lemma processTeamLinks_len_eq (fetch : String → Option Nat) :
    ∀ (links : List TeamLinkTag) (w : World) (link : Option String),
      (∀ a ∈ links, teamLinkName a ≠ "") →
      (processTeamLinks fetch links w link).1.length = links.length := by
  intro links
  induction links with
  | nil => intro w link _; simp [processTeamLinks]
  | cons a rest ih =>
    intro w link hall
    simp only [processTeamLinks]
    rw [if_pos (hall a (List.mem_cons_self _ _))]
    simp [ih _ _ (fun x hx => hall x (List.mem_cons_of_mem _ hx))]

lemma keep_pack {t : String} {ts : List String} {ti : List (Option String)}
    {st tv lk : Option String} {W : World} {r : MatchRecord} {w' : World}
    (h : (if keepRecord t ts tv then ((some ⟨t, ts, ti, st, tv, lk⟩ : Option MatchRecord), W)
          else (none, W)) = (some r, w')) :
    r = ⟨t, ts, ti, st, tv, lk⟩ ∧ keepRecord t ts tv = true ∧ w' = W := by
  split at h
  · simp only [Prod.mk.injEq, Option.some.injEq] at h
    exact ⟨h.1.symm, by assumption, h.2.symm⟩
  · simp at h

lemma parseMatchUpdate_some {fetch : String → Option Nat} {mu : MatchUpdate} {w : World}
    {r : MatchRecord} {w' : World} (h : parseMatchUpdate fetch mu w = (some r, w')) :
    keepRecord r.title r.teams r.time_or_venue = true ∧
    r.teams = (if (processTeamNodes fetch mu.teamNodes w).1.length > 2
      then (processTeamNodes fetch mu.teamNodes w).1.take 2
      else (processTeamNodes fetch mu.teamNodes w).1) ∧
    r.team_images = (if (processTeamNodes fetch mu.teamNodes w).1.length > 2
      then (processTeamNodes fetch mu.teamNodes w).2.1.take 2
      else (processTeamNodes fetch mu.teamNodes w).2.1) ∧
    r.status = (match mu.p with
      | some p => p.small
      | none => none) ∧
    r.time_or_venue = mu.matchResult := by
  simp only [parseMatchUpdate] at h
  obtain ⟨h1, h2, _⟩ := keep_pack h
  subst h1
  exact ⟨h2, rfl, rfl, rfl, rfl⟩

lemma parseScheduleRow_some {fetch : String → Option Nat} {tr : TRRow} {w : World}
    {r : MatchRecord} {w' : World} (h : parseScheduleRow fetch tr w = (some r, w')) :
    keepRecord r.title r.teams r.time_or_venue = true ∧
    r.status = statusForDate r.time_or_venue ∧
    ∃ td0 restTds, tr.tds = td0 :: restTds ∧
      r.teams = (rowTeamsPack fetch td0 w).1 ∧
      r.team_images = (rowTeamsPack fetch td0 w).2.1 := by
  rcases htds : tr.tds with _ | ⟨td0, restTds⟩
  · simp only [parseScheduleRow, htds] at h
    simp at h
  · simp only [parseScheduleRow, htds] at h
    obtain ⟨h1, h2, _⟩ := keep_pack h
    subst h1
    exact ⟨h2, rfl, td0, restTds, rfl, rfl, rfl⟩

lemma _parse_match_updates_all {fetch : String → Option Nat} {P : MatchRecord → Prop}
    (hP : ∀ mu w r w', parseMatchUpdate fetch mu w = (some r, w') → P r) :
    ∀ (mus : List MatchUpdate) (w : World),
      ∀ r ∈ (_parse_match_updates fetch mus w).1, P r := by
  intro mus
  induction mus with
  | nil => intro w r hr; simp [_parse_match_updates] at hr
  | cons mu rest ih =>
    intro w r hr
    simp only [_parse_match_updates] at hr
    cases hq : (parseMatchUpdate fetch mu w).1 with
    | none =>
      simp only [hq] at hr
      exact ih _ r hr
    | some r0 =>
      simp only [hq] at hr
      rcases List.mem_cons.mp hr with h' | h'
      · subst h'
        have heq : parseMatchUpdate fetch mu w = (some r, (parseMatchUpdate fetch mu w).2) := by
          rw [← hq]
        exact hP mu w r _ heq
      · exact ih _ r h'

lemma parseScheduleRows_all {fetch : String → Option Nat} {P : MatchRecord → Prop}
    (hP : ∀ tr w r w', parseScheduleRow fetch tr w = (some r, w') → P r) :
    ∀ (rows : List TRRow) (w : World),
      ∀ r ∈ (parseScheduleRows fetch rows w).1, P r := by
  intro rows
  induction rows with
  | nil => intro w r hr; simp [parseScheduleRows] at hr
  | cons tr rest ih =>
    intro w r hr
    simp only [parseScheduleRows] at hr
    cases hq : (parseScheduleRow fetch tr w).1 with
    | none =>
      simp only [hq] at hr
      exact ih _ r hr
    | some r0 =>
      simp only [hq] at hr
      rcases List.mem_cons.mp hr with h' | h'
      · subst h'
        have heq : parseScheduleRow fetch tr w = (some r, (parseScheduleRow fetch tr w).2) := by
          rw [← hq]
        exact hP tr w r _ heq
      · exact ih _ r h'

lemma _parse_schedule_table_all {fetch : String → Option Nat} {P : MatchRecord → Prop}
    (hP : ∀ tr w r w', parseScheduleRow fetch tr w = (some r, w') → P r)
    (root : ScheduleRoot) (w : World) :
    ∀ r ∈ (_parse_schedule_table fetch root w).1, P r := by
  intro r hr
  unfold _parse_schedule_table at hr
  cases htab : root.schedule_table with
  | none => rw [htab] at hr; simp at hr
  | some t =>
    rw [htab] at hr
    exact parseScheduleRows_all hP t.rows w r hr

lemma mergeAux_sublist : ∀ (l : List MatchRecord) (seen : List String),
    (mergeAux l seen).Sublist l := by
  intro l
  induction l with
  | nil => intro seen; simp [mergeAux]
  | cons it rest ih =>
    intro seen
    simp only [mergeAux]
    split
    · exact (ih seen).cons it
    · exact (ih (key_for it :: seen)).cons₂ it

lemma mergeAux_mem_spec : ∀ (l : List MatchRecord) (seen : List String) (r : MatchRecord),
    r ∈ mergeAux l seen →
    key_for r ∉ seen ∧ l.find? (fun x => key_for x == key_for r) = some r := by
  intro l
  induction l with
  | nil => intro seen r hr; simp [mergeAux] at hr
  | cons it rest ih =>
    intro seen r hr
    simp only [mergeAux] at hr
    split at hr
    · obtain ⟨h1, h2⟩ := ih seen r hr
      refine ⟨h1, ?_⟩
      rw [List.find?_cons_of_neg]
      · exact h2
      · simp only [beq_iff_eq]
        intro he
        rw [← he] at h1
        exact h1 (by assumption)
    · rcases List.mem_cons.mp hr with h' | h'
      · subst h'
        refine ⟨by assumption, ?_⟩
        rw [List.find?_cons_of_pos]
        simp
      · obtain ⟨h1, h2⟩ := ih _ r h'
        have hne : key_for r ≠ key_for it := by
          intro he
          exact h1 (by rw [he]; exact List.mem_cons_self _ _)
        refine ⟨fun hin => h1 (List.mem_cons_of_mem _ hin), ?_⟩
        rw [List.find?_cons_of_neg]
        · exact h2
        · simp only [beq_iff_eq]
          exact fun he => hne he.symm

lemma mergeAux_keys_nodup : ∀ (l : List MatchRecord) (seen : List String),
    ((mergeAux l seen).map key_for).Nodup := by
  intro l
  induction l with
  | nil => intro seen; simp [mergeAux]
  | cons it rest ih =>
    intro seen
    simp only [mergeAux]
    split
    · exact ih seen
    · simp only [List.map_cons, List.nodup_cons]
      refine ⟨?_, ih _⟩
      intro hin
      obtain ⟨q, hq, hkey⟩ := List.mem_map.mp hin
      have := (mergeAux_mem_spec rest (key_for it :: seen) q hq).1
      exact this (by rw [hkey]; exact List.mem_cons_self _ _)

lemma mergeAux_complete : ∀ (l : List MatchRecord) (seen : List String) (r : MatchRecord),
    r ∈ l → key_for r ∉ seen →
    ∃ q ∈ mergeAux l seen, key_for q = key_for r := by
  intro l
  induction l with
  | nil => intro seen r hr; simp at hr
  | cons it rest ih =>
    intro seen r hr hseen
    simp only [mergeAux]
    split
    · rcases List.mem_cons.mp hr with h' | h'
      · subst h'
        exact absurd (by assumption) hseen
      · exact ih seen r h' hseen
    · rcases List.mem_cons.mp hr with h' | h'
      · subst h'
        exact ⟨r, List.mem_cons_self _ _, rfl⟩
      · by_cases hk : key_for r = key_for it
        · exact ⟨it, List.mem_cons_self _ _, hk.symm⟩
        · obtain ⟨q, hq, hkey⟩ := ih (key_for it :: seen) r h'
            (by
              intro hin
              rcases List.mem_cons.mp hin with h'' | h''
              · exact hk h''
              · exact hseen h'')
          exact ⟨q, List.mem_cons_of_mem _ hq, hkey⟩

/-- C1: a table-pass record's status is "Upcoming" exactly when its date/time
field is present and contains a time marker (AM/PM or the named timezone
abbreviation), and no other status value ever appears in the table pass. -/
theorem C1_table_status (fetch : String → Option Nat) (root : ScheduleRoot) (w : World) :
    ∀ r ∈ (_parse_schedule_table fetch root w).1,
      (r.status = some "Upcoming" ↔
        ∃ s, r.time_or_venue = some s ∧ hasTimeMarker s = true) ∧
      (r.status = some "Upcoming" ∨ r.status = none) := by
  have hrow : ∀ tr w0 r0 w0', parseScheduleRow fetch tr w0 = (some r0, w0') →
      r0.status = statusForDate r0.time_or_venue :=
    fun tr w0 r0 w0' h => (parseScheduleRow_some h).2.1
  intro r hr
  have hst : r.status = statusForDate r.time_or_venue :=
    _parse_schedule_table_all hrow root w r hr
  rw [hst]
  cases hdt : r.time_or_venue with
  | none => simp [statusForDate]
  | some s =>
    by_cases hm : hasTimeMarker s = true
    · simp [statusForDate, hm]
    · rw [Bool.not_eq_true] at hm
      simp [statusForDate, hm]

/-- Witness for C1 at a concrete dated row. -/
theorem C1_table_status_witness :
    (exRec1.status = some "Upcoming" ↔
      ∃ s, exRec1.time_or_venue = some s ∧ hasTimeMarker s = true) ∧
    (exRec1.status = some "Upcoming" ∨ exRec1.status = none) :=
  C1_table_status exFetch exSchedRoot exWorld exRec1 (by decide)

/-- C10: when the title paragraph holds a status fragment, the record's title
is the paragraph text with every occurrence of the status text deleted
(Python's global `str.replace`) and then stripped, and the status fragment's
text becomes the record's status. -/
theorem C10_card_title_global_strip (fetch : String → Option Nat) (mu : MatchUpdate)
    (w : World) (p : PTag) (st : String) (r : MatchRecord) (w' : World)
    (hp : mu.p = some p) (hst : p.small = some st)
    (h : parseMatchUpdate fetch mu w = (some r, w')) :
    r.title = pyStrip (pyDeleteAll p.text st) ∧ r.status = some st := by
  simp only [parseMatchUpdate, hp, hst] at h
  obtain ⟨h1, _, _⟩ := keep_pack h
  subst h1
  exact ⟨rfl, rfl⟩

/-- Witness for C10: both occurrences of "Live" vanish from the title. -/
theorem C10_witness :
    exC10Rec.title = pyStrip (pyDeleteAll "Live India vs Pak Live" "Live") ∧
    exC10Rec.status = some "Live" :=
  C10_card_title_global_strip exFetch exC10Card exWorld
    ⟨"Live India vs Pak Live", some "Live"⟩ "Live" exC10Rec exWorld rfl rfl (by decide)

lemma pyStrip_empty : pyStrip "" = "" := rfl

lemma keepRecord_nontrivial {t : String} {ts : List String} {tv : Option String}
    (h : keepRecord t ts tv = true) :
    t ≠ "" ∨ ts ≠ [] ∨ ∃ s, tv = some s ∧ s ≠ "" := by
  simp only [keepRecord, Bool.or_eq_true, decide_eq_true_eq] at h
  rcases h with (h | h) | h
  · left
    intro he
    subst he
    exact h pyStrip_empty
  · right; left; exact h
  · right; right
    cases tv with
    | none => simp at h
    | some s =>
      refine ⟨s, rfl, ?_⟩
      intro he
      subst he
      have h2 : decide (pyStrip ("" : String) ≠ "") = true := h
      rw [pyStrip_empty] at h2
      simp at h2

/-- C4: every record the Schedule Extractor emits, in either pass and in the
merged output, is non-trivial (at least one of title, teams, time/venue is
non-empty); a candidate with all three empty is excluded, while one with only
a non-empty time/venue is included. -/
theorem C4_discard_rule (fetch : String → Option Nat) (root : ScheduleRoot) (w : World) :
    (∀ r ∈ (_parse_match_updates fetch root.match_updates w).1, NonTrivialRecord r) ∧
    (∀ r ∈ (_parse_schedule_table fetch root w).1, NonTrivialRecord r) ∧
    (∀ r ∈ (parse_schedules_html fetch root w).1, NonTrivialRecord r) ∧
    (_parse_match_updates exFetch [exEmptyCard] exWorld).1 = [] ∧
    (_parse_match_updates exFetch [exVenueCard] exWorld).1 = [exVenueRec] := by
  refine ⟨?_, ?_, ?_, ?_, ?_⟩
  · exact _parse_match_updates_all
      (fun mu w0 r w0' h => keepRecord_nontrivial (parseMatchUpdate_some h).1)
      root.match_updates w
  · exact _parse_schedule_table_all
      (fun tr w0 r w0' h => keepRecord_nontrivial (parseScheduleRow_some h).1) root w
  · intro r hr
    have hmem : r ∈ (_parse_match_updates fetch root.match_updates w).1 ++
        (_parse_schedule_table fetch root
          (_parse_match_updates fetch root.match_updates w).2).1 :=
      (mergeAux_sublist _ []).mem hr
    rcases List.mem_append.mp hmem with h' | h'
    · exact _parse_match_updates_all
        (fun mu w0 r w0' h => keepRecord_nontrivial (parseMatchUpdate_some h).1)
        root.match_updates w r h'
    · exact _parse_schedule_table_all
        (fun tr w0 r w0' h => keepRecord_nontrivial (parseScheduleRow_some h).1) root _ r h'
  · decide
  · decide

/-- Witness for C4 at the venue-only card. -/
theorem C4_discard_rule_witness : NonTrivialRecord exVenueRec :=
  (C4_discard_rule exFetch exCardRoot exWorld).1 exVenueRec (by decide)

/-- Witness for C6 on each rule at concrete references. -/
theorem C6_norm_src_witness :
    _norm_src exMapWorld (some "https://hamariweb.com/cricflag/5.png") =
      some "/static/flags/by-name/pak.gif" ∧
    _norm_src exMapWorld (some "data:image/png;base64,xyz") = none ∧
    _norm_src exMapWorld (some "//x/y.png") = some "https://x/y.png" ∧
    _norm_src exMapWorld (some "/a/b") = some "https://hamariweb.com/a/b" ∧
    _norm_src exMapWorld (some "https://already/abs") = some "https://already/abs" := by
  refine ⟨?_, ?_, ?_, ?_, ?_⟩
  · exact (C6_norm_src_cases exMapWorld).2.2.1 _ "5" _ (by decide) (by decide)
      (by decide) (by decide)
  · exact ((C6_norm_src_cases exMapWorld).2.2.2 _ (by decide) (by decide)).1 (by decide)
  · exact ((C6_norm_src_cases exMapWorld).2.2.2 _ (by decide) (by decide)).2.1
      (by decide) (by decide)
  · exact ((C6_norm_src_cases exMapWorld).2.2.2 _ (by decide) (by decide)).2.2.1
      (by decide) (by decide) (by decide)
  · exact ((C6_norm_src_cases exMapWorld).2.2.2 _ (by decide) (by decide)).2.2.2
      (by decide) (by decide)

/-- C2 fails on the code: a card with three team elements of which one has an
empty name yields two teams but three team images. -/
theorem C2_counterexample :
    ¬ (∀ r ∈ (_parse_match_updates exFetch [exThreeNodeCard] exWorld).1,
        r.team_images.length = r.teams.length ∧ r.team_images.length ≤ 2) := by
  decide

lemma rowTeamsPack_len (fetch : String → Option Nat) (td0 : TDCell) (w : World) :
    (rowTeamsPack fetch td0 w).1.length ≤ (rowTeamsPack fetch td0 w).2.1.length ∧
    (rowTeamsPack fetch td0 w).2.1.length ≤ 2 := by
  unfold rowTeamsPack
  split
  · constructor
    · exact (processTeamLinks_len fetch _ _ _).2
    · rw [(processTeamLinks_len fetch _ _ _).1]
      simp [List.length_take_le]
  · simp

/-- C2 amended: the team list never exceeds two entries and is never longer
than the image list; in the table pass the image list also never exceeds two;
and whenever every team element carries a non-empty name, both passes emit
`team_images` of exactly the same length as `teams`, at most two. -/
theorem C2_amended_team_images (fetch : String → Option Nat) (root : ScheduleRoot)
    (w : World) :
    (∀ r ∈ (_parse_match_updates fetch root.match_updates w).1,
      r.teams.length ≤ 2 ∧ r.teams.length ≤ r.team_images.length) ∧
    (∀ r ∈ (_parse_schedule_table fetch root w).1,
      r.teams.length ≤ 2 ∧ r.teams.length ≤ r.team_images.length ∧
        r.team_images.length ≤ 2) ∧
    (∀ mu w0 r w0', (∀ tn ∈ mu.teamNodes, teamNodeName tn ≠ "") →
      parseMatchUpdate fetch mu w0 = (some r, w0') →
      r.team_images.length = r.teams.length ∧ r.team_images.length ≤ 2) ∧
    (∀ tr w0 r w0',
      (∀ td0, tr.tds.head? = some td0 → ∀ a ∈ td0.team_links, teamLinkName a ≠ "") →
      parseScheduleRow fetch tr w0 = (some r, w0') →
      r.team_images.length = r.teams.length ∧ r.team_images.length ≤ 2) := by
  refine ⟨?_, ?_, ?_, ?_⟩
  · refine _parse_match_updates_all ?_ root.match_updates w
    intro mu w0 r w0' h
    obtain ⟨-, ht, hi, -, -⟩ := parseMatchUpdate_some h
    have hlen := processTeamNodes_len fetch mu.teamNodes w0
    rw [ht, hi]
    split
    · constructor
      · simp [List.length_take_le]
      · simp only [List.length_take]
        omega
    · constructor
      · omega
      · exact hlen.2
  · refine _parse_schedule_table_all ?_ root w
    intro tr w0 r w0' h
    obtain ⟨-, -, td0, restTds, -, ht, hi⟩ := parseScheduleRow_some h
    have hlen := rowTeamsPack_len fetch td0 w0
    rw [ht, hi]
    exact ⟨hlen.1.trans hlen.2, hlen.1, hlen.2⟩
  · intro mu w0 r w0' hnames h
    obtain ⟨-, ht, hi, -, -⟩ := parseMatchUpdate_some h
    have hlen := processTeamNodes_len fetch mu.teamNodes w0
    have heq := processTeamNodes_len_eq fetch mu.teamNodes w0 hnames
    rw [ht, hi]
    split
    · simp only [List.length_take]
      omega
    · omega
  · intro tr w0 r w0' hnames h
    obtain ⟨-, -, td0, restTds, htds, ht, hi⟩ := parseScheduleRow_some h
    have hlen := rowTeamsPack_len fetch td0 w0
    have heq : (rowTeamsPack fetch td0 w0).1.length = (rowTeamsPack fetch td0 w0).2.1.length := by
      unfold rowTeamsPack
      split
      · rw [(processTeamLinks_len fetch _ _ _).1]
        refine processTeamLinks_len_eq fetch _ _ _ ?_
        intro a ha
        exact hnames td0 (by rw [htds]; rfl) a ((List.take_sublist 2 td0.team_links).mem ha)
      · rfl
    rw [ht, hi]
    omega

theorem C2_amended_witness :
    (⟨"Team C vs Team D", ["Team C", "Team D"], [none, none], none, none, none⟩ :
        MatchRecord).team_images.length =
      (⟨"Team C vs Team D", ["Team C", "Team D"], [none, none], none, none, none⟩ :
        MatchRecord).teams.length ∧
    (⟨"Team C vs Team D", ["Team C", "Team D"], [none, none], none, none, none⟩ :
        MatchRecord).team_images.length ≤ 2 :=
  (C2_amended_team_images exFetch exSchedRoot exWorld).2.2.2 exRow2 exWorld _ exWorld
    (by decide) (by decide)

/-- C3: the merge concatenates card records before table records, keeps an
order-preserving subsequence with pairwise distinct keys, loses no key,
keeps precisely the first occurrence of each key (so a card record beats a
table record with the same key), and applies no cap. -/
theorem C3_merge_dedupe (cards tbl : List MatchRecord) :
    (mergeRecords (cards ++ tbl)).Sublist (cards ++ tbl) ∧
    ((mergeRecords (cards ++ tbl)).map key_for).Nodup ∧
    (∀ r ∈ cards ++ tbl, ∃ q ∈ mergeRecords (cards ++ tbl), key_for q = key_for r) ∧
    (∀ r ∈ mergeRecords (cards ++ tbl),
      (cards ++ tbl).find? (fun x => key_for x == key_for r) = some r) ∧
    (∀ c ∈ cards, ∀ t ∈ tbl, key_for c = key_for t →
      ∃ q ∈ mergeRecords (cards ++ tbl), q ∈ cards ∧ key_for q = key_for t) ∧
    (∀ fetch root w, parse_schedules_html fetch root w =
      (mergeRecords ((_parse_match_updates fetch root.match_updates w).1 ++
        (_parse_schedule_table fetch root
          (_parse_match_updates fetch root.match_updates w).2).1),
       (_parse_schedule_table fetch root
         (_parse_match_updates fetch root.match_updates w).2).2)) := by
  refine ⟨mergeAux_sublist _ _, mergeAux_keys_nodup _ _, ?_, ?_, ?_, ?_⟩
  · intro r hr
    exact mergeAux_complete _ [] r hr (by simp)
  · intro r hr
    exact (mergeAux_mem_spec _ [] r hr).2
  · intro c hc t ht hkey
    obtain ⟨q, hq, hkeyq⟩ := mergeAux_complete (cards ++ tbl) [] c
      (List.mem_append_left _ hc) (by simp)
    refine ⟨q, hq, ?_, by rw [hkeyq, hkey]⟩
    have hfind := (mergeAux_mem_spec _ [] q hq).2
    have hsome : (cards.find? (fun x => key_for x == key_for q)).isSome := by
      rw [List.find?_isSome]
      exact ⟨c, hc, by simp [hkeyq]⟩
    rw [List.find?_append] at hfind
    cases hcf : cards.find? (fun x => key_for x == key_for q) with
    | none => rw [hcf] at hsome; simp at hsome
    | some x =>
      rw [hcf] at hfind
      have hxq : x = q := by simpa using hfind
      rw [← hxq]
      exact List.mem_of_find?_eq_some hcf
  · intro fetch root w
    rfl

/-- Witness for C3: with an identical key, the card-pass record survives. -/
theorem C3_merge_witness :
    ∃ q ∈ mergeRecords ([exCardRec] ++ [exTableRec]),
      q ∈ [exCardRec] ∧ key_for q = key_for exTableRec :=
  (C3_merge_dedupe [exCardRec] [exTableRec]).2.2.2.2.1 exCardRec (by decide)
    exTableRec (by decide) (by decide)

lemma pyStartsWith_head {s pat : String} {c : Char} (hc : pat.data.head? = some c)
    (h : pyStartsWith s pat = true) : s.data.head? = some c := by
  unfold pyStartsWith at h
  obtain ⟨t, ht⟩ := List.isPrefixOf_iff_prefix.mp h
  cases hp : pat.data with
  | nil => rw [hp] at hc; simp at hc
  | cons c0 ps =>
    rw [hp] at hc ht
    rw [← ht]
    simpa using hc

lemma extras_not_total {lab : String} (h : pyStartsWith lab "extras" = true) :
    pyStartsWith lab "total" = false := by
  by_contra hb
  rw [Bool.not_eq_false] at hb
  have h1 := pyStartsWith_head (by decide : ("extras").data.head? = some 'e') h
  have h2 := pyStartsWith_head (by decide : ("total").data.head? = some 't') hb
  rw [h1] at h2
  simp at h2

lemma extras_not_dnb {lab : String} (h : pyStartsWith lab "extras" = true) :
    pyStartsWith lab "did not bat" = false := by
  by_contra hb
  rw [Bool.not_eq_false] at hb
  have h1 := pyStartsWith_head (by decide : ("extras").data.head? = some 'e') h
  have h2 := pyStartsWith_head (by decide : ("did not bat").data.head? = some 'd') hb
  rw [h1] at h2
  simp at h2

lemma total_not_dnb {lab : String} (h : pyStartsWith lab "total" = true) :
    pyStartsWith lab "did not bat" = false := by
  by_contra hb
  rw [Bool.not_eq_false] at hb
  have h1 := pyStartsWith_head (by decide : ("total").data.head? = some 't') h
  have h2 := pyStartsWith_head (by decide : ("did not bat").data.head? = some 'd') hb
  rw [h1] at h2
  simp at h2

lemma battingLoop_spec :
    ∀ (rows : List SCRow) (bat : List BattingEntry) (ex tot : Option String),
      battingLoop rows bat ex tot =
        (bat ++ rows.filterMap battingRowEntry,
         lastLabeledFrom isExtrasRow rows ex,
         lastLabeledFrom isTotalRow rows tot) := by
  intro rows
  induction rows with
  | nil => intro bat ex tot; simp [battingLoop, lastLabeledFrom]
  | cons row rest ih =>
    intro bat ex tot
    rcases htds : row.tds with _ | ⟨td0, tdsRest⟩
    · have hex : isExtrasRow row = false := by simp [isExtrasRow, htds]
      have hto : isTotalRow row = false := by simp [isTotalRow, htds]
      have hen : battingRowEntry row = none := by simp [battingRowEntry, htds]
      simp only [battingLoop, htds, lastLabeledFrom, hex, hto, hen,
        List.filterMap_cons_none, if_neg, Bool.false_eq_true, ite_false]
      exact ih bat ex tot
    · by_cases hex : pyStartsWith (pyLower td0.text) "extras" = true
      · have hexr : isExtrasRow row = true := by simp [isExtrasRow, htds, hex]
        have htor : isTotalRow row = false := by
          simp [isTotalRow, htds, extras_not_total hex]
        have hen : battingRowEntry row = none := by
          simp [battingRowEntry, htds, hex]
        simp only [battingLoop, htds, if_pos hex]
        rw [ih]
        simp only [lastLabeledFrom, hexr, htor, if_pos, if_neg, ite_true,
          Bool.false_eq_true, ite_false, List.filterMap_cons_none hen]
        rw [htds]
        rfl
      · by_cases hto : pyStartsWith (pyLower td0.text) "total" = true
        · have hexr : isExtrasRow row = false := by simp [isExtrasRow, htds, hex]
          have htor : isTotalRow row = true := by simp [isTotalRow, htds, hto]
          have hen : battingRowEntry row = none := by
            simp [battingRowEntry, htds, hex, hto]
          simp only [battingLoop, htds, if_neg hex, if_pos hto]
          rw [ih]
          simp only [lastLabeledFrom, hexr, htor, ite_true, Bool.false_eq_true,
            ite_false, List.filterMap_cons_none hen]
          rw [htds]
          rfl
        · have hexr : isExtrasRow row = false := by simp [isExtrasRow, htds, hex]
          have htor : isTotalRow row = false := by simp [isTotalRow, htds, hto]
          simp only [battingLoop, htds, if_neg hex, if_neg hto]
          cases hen : battingRowEntry row with
          | some e =>
            show battingLoop rest (bat ++ [e]) ex tot = _
            rw [ih (bat ++ [e]) ex tot]
            simp only [lastLabeledFrom, hexr, htor, Bool.false_eq_true, ite_false,
              List.filterMap_cons_some hen, List.append_assoc, List.singleton_append]
          | none =>
            show battingLoop rest bat ex tot = _
            rw [ih bat ex tot]
            simp only [lastLabeledFrom, hexr, htor, Bool.false_eq_true, ite_false,
              List.filterMap_cons_none hen]

/-- C7: batting rows labelled "extras"/"total" set the innings' extras/total
fields (to the space-joined remaining cell text, the last such row winning)
and never enter the player list, "did not bat" rows never enter it either,
and any other row yields a BattingEntry exactly when its name is non-empty
and at least one of the five statistic cells is non-empty. -/
theorem C7_batting_rows (rows : List SCRow) :
    ((_parse_batting_table rows).1 = rows.filterMap battingRowEntry) ∧
    ((_parse_batting_table rows).2.1 = lastLabeledFrom isExtrasRow rows none) ∧
    ((_parse_batting_table rows).2.2 = lastLabeledFrom isTotalRow rows none) ∧
    (∀ row : SCRow, isExtrasRow row = true → battingRowEntry row = none) ∧
    (∀ row : SCRow, isTotalRow row = true → battingRowEntry row = none) ∧
    (∀ row : SCRow, isDnbRow row = true → battingRowEntry row = none) ∧
    (∀ row : SCRow, row.tds ≠ [] → isExtrasRow row = false → isTotalRow row = false →
      isDnbRow row = false →
      ((battingRowEntry row).isSome ↔ rowName row ≠ "" ∧ rowStatsAny row = true)) := by
  have hspec := battingLoop_spec rows [] none none
  refine ⟨?_, ?_, ?_, ?_, ?_, ?_, ?_⟩
  · show (battingLoop rows [] none none).1 = _
    rw [hspec]
    simp
  · show (battingLoop rows [] none none).2.1 = _
    rw [hspec]
  · show (battingLoop rows [] none none).2.2 = _
    rw [hspec]
  · intro row hex
    rcases htds : row.tds with _ | ⟨td0, tdsRest⟩
    · simp [isExtrasRow, htds] at hex
    · rw [isExtrasRow, htds] at hex
      simp only at hex
      simp [battingRowEntry, htds, hex]
  · intro row hto
    rcases htds : row.tds with _ | ⟨td0, tdsRest⟩
    · simp [isTotalRow, htds] at hto
    · rw [isTotalRow, htds] at hto
      simp only at hto
      have hex : pyStartsWith (pyLower td0.text) "extras" = false := by
        by_contra hb
        rw [Bool.not_eq_false] at hb
        rw [extras_not_total hb] at hto
        simp at hto
      simp [battingRowEntry, htds, hex, hto]
  · intro row hdnb
    rcases htds : row.tds with _ | ⟨td0, tdsRest⟩
    · simp [isDnbRow, htds] at hdnb
    · rw [isDnbRow, htds] at hdnb
      simp only at hdnb
      have hex : pyStartsWith (pyLower td0.text) "extras" = false := by
        by_contra hb
        rw [Bool.not_eq_false] at hb
        rw [extras_not_dnb hb] at hdnb
        simp at hdnb
      have hto : pyStartsWith (pyLower td0.text) "total" = false := by
        by_contra hb
        rw [Bool.not_eq_false] at hb
        rw [total_not_dnb hb] at hdnb
        simp at hdnb
      simp [battingRowEntry, htds, hex, hto, hdnb]
  · intro row htne hex hto hdnb
    rcases htds : row.tds with _ | ⟨td0, tdsRest⟩
    · exact absurd htds htne
    · rw [isExtrasRow, htds] at hex
      rw [isTotalRow, htds] at hto
      rw [isDnbRow, htds] at hdnb
      simp only at hex hto hdnb
      simp only [battingRowEntry, htds, hex, hto, Bool.false_eq_true, ite_false,
        rowName, rowStatsAny, hdnb]
      split
      · rename_i hcond
        constructor
        · intro _
          exact ⟨hcond.1, hcond.2.1⟩
        · intro _
          rfl
      · rename_i hcond
        constructor
        · intro hfe
          exact absurd hfe (by simp)
        · intro hc
          exact absurd ⟨hc.1, hc.2, by simp⟩ hcond

/-- Witness for C7 at the three concrete rows. -/
theorem C7_batting_rows_witness :
    battingRowEntry exExtrasRow = none ∧
    battingRowEntry exDnbRow = none ∧
    ((battingRowEntry exPlayerRow).isSome ↔
      rowName exPlayerRow ≠ "" ∧ rowStatsAny exPlayerRow = true) :=
  ⟨(C7_batting_rows []).2.2.2.1 exExtrasRow (by decide),
   (C7_batting_rows []).2.2.2.2.2.1 exDnbRow (by decide),
   (C7_batting_rows []).2.2.2.2.2.2 exPlayerRow (by decide) (by decide) (by decide)
     (by decide)⟩

lemma digitChar_ne_slash : ∀ m, m < 10 → Nat.digitChar m ≠ '/' := by decide

lemma toDigitsCore_ne_slash :
    ∀ (fuel n : Nat) (ds : List Char), (∀ c ∈ ds, c ≠ '/') →
      ∀ c ∈ Nat.toDigitsCore 10 fuel n ds, c ≠ '/' := by
  intro fuel
  induction fuel with
  | zero =>
    intro n ds h c hc
    simp only [Nat.toDigitsCore] at hc
    exact h c hc
  | succ f ih =>
    intro n ds h c hc
    simp only [Nat.toDigitsCore] at hc
    have hd : Nat.digitChar (n % 10) ≠ '/' :=
      digitChar_ne_slash _ (Nat.mod_lt _ (by decide))
    split at hc
    · rcases List.mem_cons.mp hc with h' | h'
      · subst h'; exact hd
      · exact h c h'
    · refine ih _ _ ?_ c hc
      intro d hdm
      rcases List.mem_cons.mp hdm with h' | h'
      · subst h'; exact hd
      · exact h d h'

lemma toString_nat_ne_slash (n : Nat) : ∀ c ∈ (toString n).data, c ≠ '/' := by
  intro c hc
  exact toDigitsCore_ne_slash (n + 1) n [] (by simp) c hc

lemma slugify_ne_slash (s : String) : ∀ c ∈ (slugify s).data, c ≠ '/' := by
  intro c hc he
  have h := (slugify_shape s).2.1 c hc
  subst he
  exact absurd h (by decide)

lemma takeWhile_append_all {p : Char → Bool} :
    ∀ {l1 l2 : List Char}, (∀ c ∈ l1, p c = true) →
      (l1 ++ l2).takeWhile p = l1 ++ l2.takeWhile p := by
  intro l1
  induction l1 with
  | nil => intro l2 _; simp
  | cons a as ih =>
    intro l2 h
    simp only [List.cons_append, List.takeWhile_cons]
    rw [if_pos (h a (List.mem_cons_self _ _)), ih (fun c hc => h c (List.mem_cons_of_mem _ hc))]

lemma baseNameStr_append {pre nm : String} (h : ∀ c ∈ nm.data, c ≠ '/') :
    baseNameStr (pre ++ "/" ++ nm) = nm := by
  apply String.ext
  show ((pre ++ "/" ++ nm).data.reverse.takeWhile (· ≠ '/')).reverse = nm.data
  rw [String.data_append, String.data_append]
  rw [show ("/" : String).data = ['/'] from rfl]
  rw [show (pre.data ++ ['/'] ++ nm.data).reverse =
    nm.data.reverse ++ ('/' :: pre.data.reverse) from by simp]
  rw [takeWhile_append_all (fun c hc => by
    simp only [decide_eq_true_eq]
    exact h c (List.mem_reverse.mp hc))]
  rw [show List.takeWhile (fun c => decide (c ≠ '/')) ('/' :: pre.data.reverse) = [] from by
    rw [List.takeWhile_cons, if_neg (by decide)]]
  simp

lemma lstripSlash_relByNameBase (nm : String) :
    lstripSlash ("/static/flags/by-name/" ++ nm) = "static/flags/by-name/" ++ nm := by
  apply String.ext
  show ("/static/flags/by-name/" ++ nm).data.dropWhile (· = '/') =
    ("static/flags/by-name/" ++ nm).data
  rw [String.data_append, String.data_append]
  rw [show ("/static/flags/by-name/" : String).data =
    '/' :: ("static/flags/by-name/" : String).data from rfl]
  rw [List.cons_append, List.dropWhile_cons, if_pos (by decide)]
  rw [show ("static/flags/by-name/" : String).data =
    's' :: ("tatic/flags/by-name/" : String).data from rfl]
  rw [List.cons_append, List.dropWhile_cons, if_neg (by decide)]

lemma workspacePath_relByNameBase (nm : String) :
    workspacePath ("/static/flags/by-name/" ++ nm) =
      "/workspace/static/flags/by-name/" ++ nm := by
  unfold workspacePath
  rw [lstripSlash_relByNameBase]
  rw [← String.append_assoc]
  rfl

lemma outCandidate_decomp (base : String) (k : Nat) :
    outCandidate base k = FLAGS_BY_NAME_DIR ++ "/" ++ outCandName base k := by
  unfold outCandidate outCandName
  split
  · simp [String.append_assoc]
  · simp [String.append_assoc]

lemma outCandName_ne_slash {base : String} (hb : ∀ c ∈ base.data, c ≠ '/') (k : Nat) :
    ∀ c ∈ (outCandName base k).data, c ≠ '/' := by
  intro c hc
  unfold outCandName at hc
  split at hc
  · rw [String.data_append] at hc
    rcases List.mem_append.mp hc with h' | h'
    · exact hb c h'
    · intro he; subst he; exact absurd h' (by decide)
  · rw [String.data_append, String.data_append, String.data_append] at hc
    rcases List.mem_append.mp hc with h' | h'
    · rcases List.mem_append.mp h' with h'' | h''
      · rcases List.mem_append.mp h'' with h3 | h3
        · exact hb c h3
        · intro he; subst he; exact absurd h3 (by decide)
      · exact toString_nat_ne_slash k c h''
    · intro he; subst he; exact absurd h' (by decide)

lemma relByName_outCandidate {base : String} (hb : ∀ c ∈ base.data, c ≠ '/') (k : Nat) :
    relByName (outCandidate base k) = "/static/flags/by-name/" ++ outCandName base k := by
  unfold relByName
  rw [outCandidate_decomp, baseNameStr_append (outCandName_ne_slash hb k)]

lemma workspacePath_relByName_outCandidate {base : String}
    (hb : ∀ c ∈ base.data, c ≠ '/') (k : Nat) :
    workspacePath (relByName (outCandidate base k)) = outCandidate base k := by
  rw [relByName_outCandidate hb, workspacePath_relByNameBase, outCandidate_decomp]
  congr 1

lemma findOutPath_isCandidate (fs : FS) (idp : Option String) (base : String) :
    ∀ (fuel k : Nat), ∃ j, findOutPath fs idp base fuel k = outCandidate base j := by
  intro fuel
  induction fuel with
  | zero => intro k; exact ⟨k, rfl⟩
  | succ f ih =>
    intro k
    simp only [findOutPath]
    split
    · split
      · exact ⟨k, rfl⟩
      · exact ih (k + 1)
    · exact ⟨k, rfl⟩

lemma lookup_mapInsert (k v : String) (m : List (String × String)) :
    (mapInsert k v m).lookup k = some v := by
  simp [mapInsert, List.lookup]

lemma pathPresent_write_self (fs : FS) (p : String) (n : Nat) :
    (fs.write p n).pathPresent p = true := by
  simp [FS.write, FS.pathPresent, List.lookup]

lemma relByName_ne_empty (p : String) : relByName p ≠ "" := by
  unfold relByName
  intro he
  have hd : ("/static/flags/by-name/" ++ baseNameStr p).data = ("" : String).data := by
    rw [he]
  rw [String.data_append] at hd
  rcases List.append_eq_nil.mp hd with ⟨h1, -⟩
  exact absurd h1 (by decide)

lemma _download_flag_gif_none {fetch : String → Option Nat} {fid : String} {fs fs1 : FS}
    (h : _download_flag_gif fetch fid fs = (none, fs1)) : fs1 = fs := by
  unfold _download_flag_gif at h
  repeat' split at h
  all_goals (injection h with h1 h2; first | exact h2.symm | exact absurd h1 (by simp))

lemma ensure_after_fresh (fetch : String → Option Nat) (flag_id team_name : String)
    (w : World)
    (hroute : _ensure_flag_local fetch flag_id team_name w =
      _ensure_flag_local_fresh fetch flag_id team_name w) :
    _ensure_flag_local fetch flag_id team_name
      (_ensure_flag_local_fresh fetch flag_id team_name w).2 =
    _ensure_flag_local_fresh fetch flag_id team_name w := by
  rcases hdl : _download_flag_gif fetch flag_id w.fs with ⟨ro, fs1⟩
  cases ro with
  | none =>
    have hfs : fs1 = w.fs := _download_flag_gif_none hdl
    subst hfs
    have h1 : _ensure_flag_local_fresh fetch flag_id team_name w = (none, w) := by
      simp only [_ensure_flag_local_fresh, hdl]
    rw [h1, hroute, h1]
  | some raw =>
    have h1 : _ensure_flag_local_fresh fetch flag_id team_name w =
        (some (relByName (findOutPath fs1 (w.flags.id_to_path.lookup flag_id)
            (slugify (pyOrStr team_name ("flag-" ++ flag_id))) (fs1.files.length + 1) 1)),
         ⟨fs1.write (findOutPath fs1 (w.flags.id_to_path.lookup flag_id)
              (slugify (pyOrStr team_name ("flag-" ++ flag_id))) (fs1.files.length + 1) 1)
            (fs1.fileSize raw),
          ⟨mapInsert flag_id
            (relByName (findOutPath fs1 (w.flags.id_to_path.lookup flag_id)
              (slugify (pyOrStr team_name ("flag-" ++ flag_id))) (fs1.files.length + 1) 1))
            w.flags.id_to_path,
           if team_name ≠ "" then mapInsert flag_id team_name w.flags.id_to_name
           else w.flags.id_to_name⟩⟩) := by
      simp only [_ensure_flag_local_fresh, hdl]
    set base := slugify (pyOrStr team_name ("flag-" ++ flag_id)) with hbase
    set out := findOutPath fs1 (w.flags.id_to_path.lookup flag_id) base
      (fs1.files.length + 1) 1 with hout
    obtain ⟨j, hj⟩ :=
      findOutPath_isCandidate fs1 (w.flags.id_to_path.lookup flag_id) base
        (fs1.files.length + 1) 1
    rw [← hout] at hj
    have hb : ∀ c ∈ base.data, c ≠ '/' := slugify_ne_slash _
    have hwp : workspacePath (relByName out) = out := by
      rw [hj]
      exact workspacePath_relByName_outCandidate hb j
    have hrelne : relByName out ≠ "" := relByName_ne_empty out
    rw [h1]
    simp only [_ensure_flag_local, lookup_mapInsert]
    rw [if_pos ⟨hrelne, by rw [hwp]; exact pathPresent_write_self _ _ _⟩]
    by_cases htn : team_name = ""
    · rw [if_neg (fun hc => hc.1 htn)]
    · rw [if_pos (by simp [htn] : team_name ≠ ""), if_neg ?_]
      intro hc
      exact hc.2 (lookup_mapInsert _ _ _)

/-- C8: a second Flag Resolver call with the same identifier and name, starting
from the state the first call left, returns the same reference and leaves the
filesystem and both mappings exactly as they were after the first call. -/
theorem C8_flag_resolver_idempotent (fetch : String → Option Nat)
    (flag_id team_name : String) (w : World) :
    _ensure_flag_local fetch flag_id team_name
      (_ensure_flag_local fetch flag_id team_name w).2 =
    _ensure_flag_local fetch flag_id team_name w := by
  cases hlk : w.flags.id_to_path.lookup flag_id with
  | none =>
    have hroute : _ensure_flag_local fetch flag_id team_name w =
        _ensure_flag_local_fresh fetch flag_id team_name w := by
      simp only [_ensure_flag_local, hlk]
    rw [hroute]
    exact ensure_after_fresh fetch flag_id team_name w hroute
  | some e =>
    by_cases hcond : e ≠ "" ∧ w.fs.pathPresent (workspacePath e) = true
    · by_cases hname : team_name ≠ "" ∧ w.flags.id_to_name.lookup flag_id ≠ some team_name
      · have h1 : _ensure_flag_local fetch flag_id team_name w =
            (some e, { w with flags := { w.flags with
              id_to_name := mapInsert flag_id team_name w.flags.id_to_name } }) := by
          simp only [_ensure_flag_local, hlk]
          rw [if_pos hcond, if_pos hname]
        rw [h1]
        have hlk1 : ({ w with flags := { w.flags with
            id_to_name := mapInsert flag_id team_name w.flags.id_to_name } } :
              World).flags.id_to_path.lookup flag_id = some e := hlk
        simp only [_ensure_flag_local, hlk1]
        rw [if_pos hcond, if_neg ?_]
        intro hc
        exact hc.2 (lookup_mapInsert _ _ _)
      · have h1 : _ensure_flag_local fetch flag_id team_name w = (some e, w) := by
          simp only [_ensure_flag_local, hlk]
          rw [if_pos hcond, if_neg hname]
        rw [h1]
        exact h1
    · have hroute : _ensure_flag_local fetch flag_id team_name w =
          _ensure_flag_local_fresh fetch flag_id team_name w := by
        simp only [_ensure_flag_local, hlk]
        rw [if_neg hcond]
      rw [hroute]
      exact ensure_after_fresh fetch flag_id team_name w hroute
